import Mathlib

/-!
# amplitude-go: a shallow embedding of `client.go`

The Go package is one file: three record types (`Event`, `EventRequest`,
`Identify`), a `Client`, and the operations `New`, `SetClient`, `Events`,
`Event` and `Identify`.  The operations are embedded as pure functions that
return an `Outcome`: the error handed back to the caller, the requests handed
to the held `*http.Client`, and the responses whose body was closed.

The Go standard library pieces the operations call are embedded next to them,
as of Go 1.22: `encoding/json` marshalling of the three record types (field
order of the declaration, `omitempty`, string escaping with HTML escaping on,
sorted map keys) and its reading of a string literal, `net/url` form encoding
and decoding, and header canonicalisation.  Two library functions are taken as parameters (`Stdlib`):
the shortest-decimal formatting of a finite float64 and the gzip writer.

Conventions:
* Go strings are byte sequences, so `GoString` is a list of bytes.
* `int` and `int64` fields are `Int`; a float64 is its 64-bit pattern as a
  `Nat`.  No arithmetic is done on either, they are only tested for zero and
  printed.
* The held `*http.Client` is non-nil and is seen through the one call each
  operation makes on it (`Do`, reached directly or through `PostForm`): a
  function from the request to a response or an error.  Time is not modelled;
  a deadline that passes shows up as an error returned by that call.
-/

namespace Amplitude

/-! ## Bytes and strings -/

abbrev Byte := Fin 256

abbrev GoString := List Byte

/-- UTF-8 encoding of one code point (`utf8.AppendRune` on a valid rune). -/
def encodeRune (r : Nat) : GoString :=
  if r < 0x80 then [Fin.ofNat r]
  else if r < 0x800 then [Fin.ofNat (0xC0 + r / 64), Fin.ofNat (0x80 + r % 64)]
  else if r < 0x10000 then
    [Fin.ofNat (0xE0 + r / 4096), Fin.ofNat (0x80 + r / 64 % 64), Fin.ofNat (0x80 + r % 64)]
  else
    [Fin.ofNat (0xF0 + r / 262144), Fin.ofNat (0x80 + r / 4096 % 64),
     Fin.ofNat (0x80 + r / 64 % 64), Fin.ofNat (0x80 + r % 64)]

/-- The bytes of a source-text string literal. -/
def str (s : String) : GoString := s.toList.flatMap fun c => encodeRune c.toNat

/-- Lower-case hex digit, `"0123456789abcdef"[n]` in `encoding/json`. -/
def hexLower (n : Nat) : Byte := if n < 10 then Fin.ofNat (48 + n) else Fin.ofNat (87 + n)

/-- Upper-case hex digit, `"0123456789ABCDEF"[n]` in `net/url`. -/
def upperhex (n : Nat) : Byte := if n < 10 then Fin.ofNat (48 + n) else Fin.ofNat (55 + n)

/-- The value `utf8.RuneError`. -/
def RuneError : Nat := 0xFFFD

/-- For a lead byte of a multi-byte sequence: its length and the accepted range
of the second byte (the `first` and `acceptRanges` tables of `unicode/utf8`). -/
def leadInfo (b : Nat) : Option (Nat × Nat × Nat) :=
  if 0xC2 ≤ b ∧ b ≤ 0xDF then some (2, 0x80, 0xBF)
  else if b = 0xE0 then some (3, 0xA0, 0xBF)
  else if 0xE1 ≤ b ∧ b ≤ 0xEC then some (3, 0x80, 0xBF)
  else if b = 0xED then some (3, 0x80, 0x9F)
  else if 0xEE ≤ b ∧ b ≤ 0xEF then some (3, 0x80, 0xBF)
  else if b = 0xF0 then some (4, 0x90, 0xBF)
  else if 0xF1 ≤ b ∧ b ≤ 0xF3 then some (4, 0x80, 0xBF)
  else if b = 0xF4 then some (4, 0x80, 0x8F)
  else none

/-- Continuation byte test (`locb ≤ b ≤ hicb`). -/
def isCont (b : Nat) : Bool := 0x80 ≤ b && b ≤ 0xBF

/-- The rune and width `utf8.DecodeRuneInString` returns on a non-empty string;
`(RuneError, 1)` on an invalid or truncated sequence. -/
def decodeRune : GoString → Nat × Nat
  | [] => (RuneError, 0)
  | s0 :: rest =>
    if s0.val < 0x80 then (s0.val, 1)
    else
      match leadInfo s0.val with
      | none => (RuneError, 1)
      | some (sz, lo, hi) =>
        if rest.length + 1 < sz then (RuneError, 1)
        else
          match rest with
          | [] => (RuneError, 1)
          | s1 :: rest1 =>
            if s1.val < lo ∨ hi < s1.val then (RuneError, 1)
            else if sz ≤ 2 then ((s0.val % 32) * 64 + s1.val % 64, 2)
            else
              match rest1 with
              | [] => (RuneError, 1)
              | s2 :: rest2 =>
                if !isCont s2.val then (RuneError, 1)
                else if sz ≤ 3 then
                  ((s0.val % 16) * 4096 + (s1.val % 64) * 64 + s2.val % 64, 3)
                else
                  match rest2 with
                  | [] => (RuneError, 1)
                  | s3 :: _ =>
                    if !isCont s3.val then (RuneError, 1)
                    else ((s0.val % 8) * 262144 + (s1.val % 64) * 4096
                            + (s2.val % 64) * 64 + s3.val % 64, 4)

/-- The `htmlSafeSet` table of `encoding/json`: printable ASCII except
the double quote, the backslash, and the three HTML characters. -/
def htmlSafe (b : Nat) : Bool :=
  0x20 ≤ b && b < 0x80 && b != 0x22 && b != 0x5C && b != 0x3C && b != 0x3E && b != 0x26

/-- What `appendString` writes for one ASCII byte (HTML escaping on). -/
def escapeASCII (b : Byte) : GoString :=
  if htmlSafe b.val then [b]
  else if b.val = 0x5C ∨ b.val = 0x22 then [0x5C, b]
  else if b.val = 0x08 then str "\\b"
  else if b.val = 0x0C then str "\\f"
  else if b.val = 0x0A then str "\\n"
  else if b.val = 0x0D then str "\\r"
  else if b.val = 0x09 then str "\\t"
  else str "\\u00" ++ [hexLower (b.val / 16), hexLower (b.val % 16)]

/-- The body of the `appendString` loop.  `skip` counts the remaining bytes of
a multi-byte rune already decoded; they are copied when `copy` is set (a valid
rune) and dropped otherwise (U+2028 and U+2029, written as an escape). -/
def escapeFrom : Nat → Bool → GoString → GoString
  | _, _, [] => []
  | k + 1, copy, b :: rest =>
    if copy then b :: escapeFrom k copy rest else escapeFrom k copy rest
  | 0, _, b :: rest =>
    if b.val < 0x80 then escapeASCII b ++ escapeFrom 0 true rest
    else
      let d := decodeRune (b :: rest)
      if d.1 = RuneError ∧ d.2 = 1 then str "\\ufffd" ++ escapeFrom 0 true rest
      else if d.1 = 0x2028 ∨ d.1 = 0x2029 then
        str "\\u202" ++ [hexLower (d.1 % 16)] ++ escapeFrom (d.2 - 1) false rest
      else b :: escapeFrom (d.2 - 1) true rest

/-- A JSON string literal as `encoding/json` writes it (`appendString` with
`escapeHTML = true`). -/
def quote (s : GoString) : GoString := [0x22] ++ escapeFrom 0 true s ++ [0x22]

/-- Decimal text of an integer (`strconv.AppendInt(b, n, 10)`). -/
def formatInt (n : Int) : GoString :=
  let ds : GoString := (Nat.toDigits 10 n.natAbs).map fun c => Fin.ofNat c.toNat
  if n < 0 then 0x2D :: ds else ds

/-! ## JSON documents -/

/-- A JSON document.  A number keeps its literal text, a string its unescaped
content, an object its members in the order they are written. -/
inductive Json where
  | null
  | bool (b : Bool)
  | number (lit : GoString)
  | string (s : GoString)
  | array (xs : List Json)
  | object (ms : List (GoString × Json))

mutual
/-- The compact text of a document, as `json.Marshal` emits it. -/
def Json.render : Json → GoString
  | .null => str "null"
  | .bool true => str "true"
  | .bool false => str "false"
  | .number lit => lit
  | .string s => quote s
  | .array xs => [0x5B] ++ Json.renderElems xs ++ [0x5D]
  | .object ms => [0x7B] ++ Json.renderMembers ms ++ [0x7D]
/-- Array elements, comma separated. -/
def Json.renderElems : List Json → GoString
  | [] => []
  | x :: xs =>
    match xs with
    | [] => x.render
    | _ :: _ => x.render ++ [0x2C] ++ Json.renderElems xs
/-- Object members `"key":value`, comma separated. -/
def Json.renderMembers : List (GoString × Json) → GoString
  | [] => []
  | (k, x) :: ms =>
    match ms with
    | [] => quote k ++ [0x3A] ++ x.render
    | _ :: _ => quote k ++ [0x3A] ++ x.render ++ [0x2C] ++ Json.renderMembers ms
end

/-- The member of an object with the given key, when the document is an object
that has one. -/
def Json.member (k : GoString) : Json → Option Json
  | .object ms => (ms.find? fun m => m.1 = k).map Prod.snd
  | _ => none

/-- The keys of an object, in order; empty for any other document. -/
def Json.keys : Json → List GoString
  | .object ms => ms.map Prod.fst
  | _ => []

/-! ## Go values and `json.Marshal` -/

/-- A Go `error` value as the operations see it. -/
inductive Error where
  /-- The `*json.UnsupportedTypeError` of a channel, function or complex value. -/
  | unsupportedType
  /-- The `*json.UnsupportedValueError` of a NaN or infinite float. -/
  | unsupportedValue
  /-- An error made outside this package: by the HTTP client or a response body. -/
  | other (id : Nat)
  deriving DecidableEq, Repr

deriving instance DecidableEq for Except

/-- The two standard-library functions that are taken as given. -/
structure Stdlib where
  /-- The text `encoding/json` writes for the finite float64 with this bit pattern. -/
  formatFloat : Nat → GoString
  /-- The bytes a `gzip.Writer` at default level has written after `Write` and `Close`. -/
  gzip : GoString → GoString
  /-- Reading a gzip stream back with a `gzip.Reader`. -/
  gunzip : GoString → Option GoString
  /-- Decompression undoes compression. -/
  gunzip_gzip : ∀ b, gunzip (gzip b) = some b

/-- A float64 bit pattern is NaN or ±Inf when its exponent field is all ones. -/
def floatNonFinite (bits : Nat) : Bool := bits / 2 ^ 52 % 2 ^ 11 = 2047

/-- A float64 compares equal to 0 when it is +0 or -0. -/
def floatIsZero (bits : Nat) : Bool := bits % 2 ^ 63 = 0

/-- A dynamically typed value held in a `map[string]interface{}`: the kinds
`encoding/json` writes without user code (nil, booleans, integers, floats,
strings, non-nil slices and maps of such values) and the kinds it rejects. -/
inductive GoValue where
  | nil
  | bool (b : Bool)
  | int (n : Int)
  | float (bits : Nat)
  | string (s : GoString)
  | slice (xs : List GoValue)
  | map (m : List (GoString × GoValue))
  /-- A value of a kind `encoding/json` rejects (chan, func, complex). -/
  | chan

/-- A `map[string]interface{}`: its entries, keys distinct.  The nil map and
the empty map are both the empty list. -/
abbrev GoMap := List (GoString × GoValue)

/-- Map entries in increasing key order, the order `encoding/json` writes them. -/
def sortByKey {α : Type} (m : List (GoString × α)) : List (GoString × α) :=
  m.insertionSort fun a b => a.1 ≤ b.1

/-- The first error of a list of results, or all the values. -/
def sequenceMembers : List (GoString × Except Error Json) → Except Error (List (GoString × Json))
  | [] => .ok []
  | (k, r) :: rest =>
    match r with
    | .error e => .error e
    | .ok x =>
      match sequenceMembers rest with
      | .error e => .error e
      | .ok xs => .ok ((k, x) :: xs)

mutual
/-- The document `encoding/json` writes for a dynamic value, or its error. -/
def marshalValue (lib : Stdlib) : GoValue → Except Error Json
  | .nil => .ok .null
  | .bool b => .ok (.bool b)
  | .int n => .ok (.number (formatInt n))
  | .float bits =>
    if floatNonFinite bits then .error .unsupportedValue
    else .ok (.number (lib.formatFloat bits))
  | .string s => .ok (.string s)
  | .slice xs =>
    match marshalSlice lib xs with
    | .error e => .error e
    | .ok js => .ok (.array js)
  | .map m =>
    match sequenceMembers (sortByKey (marshalEntries lib m)) with
    | .error e => .error e
    | .ok ms => .ok (.object ms)
  | .chan => .error .unsupportedType
/-- Slice elements in order, stopping at the first error. -/
def marshalSlice (lib : Stdlib) : List GoValue → Except Error (List Json)
  | [] => .ok []
  | v :: vs =>
    match marshalValue lib v with
    | .error e => .error e
    | .ok j =>
      match marshalSlice lib vs with
      | .error e => .error e
      | .ok js => .ok (j :: js)
/-- Each map entry with the result of marshalling its value. -/
def marshalEntries (lib : Stdlib) : List (GoString × GoValue) → List (GoString × Except Error Json)
  | [] => []
  | (k, v) :: m => (k, marshalValue lib v) :: marshalEntries lib m
end

/-- The value of one struct field of `Event` or `Identify`. -/
inductive FieldValue where
  | str (s : GoString)
  | int (n : Int)
  | float (bits : Nat)
  | map (m : GoMap)

/-- The `isEmptyValue` test behind `omitempty`. -/
def FieldValue.isEmpty : FieldValue → Bool
  | .str s => s.length = 0
  | .int n => n = 0
  | .float bits => floatIsZero bits
  | .map m => m.length = 0

/-- The document written for a field that is not omitted. -/
def FieldValue.marshal (lib : Stdlib) : FieldValue → Except Error Json
  | .str s => .ok (.string s)
  | .int n => .ok (.number (formatInt n))
  | .float bits => marshalValue lib (.float bits)
  | .map m => marshalValue lib (.map m)

/-- The members of a struct whose fields all carry `omitempty`: fields in
declaration order, an empty field skipped, the first error returned. -/
def marshalFields (lib : Stdlib) : List (GoString × FieldValue) → Except Error (List (GoString × Json))
  | [] => .ok []
  | (name, v) :: rest =>
    if v.isEmpty then marshalFields lib rest
    else
      match v.marshal lib with
      | .error e => .error e
      | .ok j =>
        match marshalFields lib rest with
        | .error e => .error e
        | .ok ms => .ok ((name, j) :: ms)

/-- The struct `Event` of client.go, lines 25-62. -/
structure Event where
  Adid : GoString := []
  AppVersion : GoString := []
  Carrier : GoString := []
  City : GoString := []
  Country : GoString := []
  DeviceBrand : GoString := []
  DeviceId : GoString := []
  DeviceManufacturer : GoString := []
  DeviceModel : GoString := []
  DeviceType : GoString := []
  Dma : GoString := []
  EventId : Int := 0
  EventProperties : GoMap := []
  EventType : GoString := []
  Groups : GoMap := []
  Ifda : GoString := []
  InsertId : GoString := []
  Ip : GoString := []
  Language : GoString := []
  LocationLat : GoString := []
  LocationLng : GoString := []
  OsName : GoString := []
  OsVersion : GoString := []
  Paying : GoString := []
  Platform : GoString := []
  Price : Nat := 0
  ProductId : GoString := []
  Quantity : Int := 0
  Region : GoString := []
  Revenue : Nat := 0
  RevenueType : GoString := []
  SessionId : Int := 0
  StartVersion : GoString := []
  Time : Int := 0
  UserId : GoString := []
  UserProperties : GoMap := []

/-- The fields of an `Event` with their JSON names, in declaration order. -/
def Event.fields (e : Event) : List (GoString × FieldValue) :=
  [ (str "adid", .str e.Adid),
    (str "app_version", .str e.AppVersion),
    (str "carrier", .str e.Carrier),
    (str "city", .str e.City),
    (str "country", .str e.Country),
    (str "device_brand", .str e.DeviceBrand),
    (str "device_id", .str e.DeviceId),
    (str "device_manufacturer", .str e.DeviceManufacturer),
    (str "device_model", .str e.DeviceModel),
    (str "device_type", .str e.DeviceType),
    (str "dma", .str e.Dma),
    (str "event_id", .int e.EventId),
    (str "event_properties", .map e.EventProperties),
    (str "event_type", .str e.EventType),
    (str "groups", .map e.Groups),
    (str "ifda", .str e.Ifda),
    (str "insert_id", .str e.InsertId),
    (str "ip", .str e.Ip),
    (str "language", .str e.Language),
    (str "location_lat", .str e.LocationLat),
    (str "location_lng", .str e.LocationLng),
    (str "os_name", .str e.OsName),
    (str "os_version", .str e.OsVersion),
    (str "paying", .str e.Paying),
    (str "platform", .str e.Platform),
    (str "price", .float e.Price),
    (str "productId", .str e.ProductId),
    (str "quantity", .int e.Quantity),
    (str "region", .str e.Region),
    (str "revenue", .float e.Revenue),
    (str "revenueType", .str e.RevenueType),
    (str "session_id", .int e.SessionId),
    (str "start_version", .str e.StartVersion),
    (str "time", .int e.Time),
    (str "user_id", .str e.UserId),
    (str "user_properties", .map e.UserProperties) ]

/-- The struct `EventRequest` of client.go, lines 64-67. -/
structure EventRequest where
  ApiKey : GoString := []
  Events : List Event := []

/-- The struct `Identify` of client.go, lines 69-90. -/
structure Identify where
  AppVersion : GoString := []
  Carrier : GoString := []
  City : GoString := []
  Country : GoString := []
  DeviceBrand : GoString := []
  DeviceId : GoString := []
  DeviceManufacturer : GoString := []
  DeviceModel : GoString := []
  DeviceType : GoString := []
  Dma : GoString := []
  Groups : GoMap := []
  Language : GoString := []
  OsName : GoString := []
  OsVersion : GoString := []
  Paying : GoString := []
  Platform : GoString := []
  Region : GoString := []
  StartVersion : GoString := []
  UserId : GoString := []
  UserProperties : GoMap := []

/-- The fields of an `Identify` with their JSON names, in declaration order. -/
def Identify.fields (m : Identify) : List (GoString × FieldValue) :=
  [ (str "app_version", .str m.AppVersion),
    (str "carrier", .str m.Carrier),
    (str "city", .str m.City),
    (str "country", .str m.Country),
    (str "device_brand", .str m.DeviceBrand),
    (str "device_id", .str m.DeviceId),
    (str "device_manufacturer", .str m.DeviceManufacturer),
    (str "device_model", .str m.DeviceModel),
    (str "device_type", .str m.DeviceType),
    (str "dma", .str m.Dma),
    (str "groups", .map m.Groups),
    (str "language", .str m.Language),
    (str "os_name", .str m.OsName),
    (str "os_version", .str m.OsVersion),
    (str "paying", .str m.Paying),
    (str "platform", .str m.Platform),
    (str "region", .str m.Region),
    (str "start_version", .str m.StartVersion),
    (str "user_id", .str m.UserId),
    (str "user_properties", .map m.UserProperties) ]

/-- The document of an `Event`. -/
def Event.toJson (lib : Stdlib) (e : Event) : Except Error Json :=
  match marshalFields lib e.fields with
  | .error err => .error err
  | .ok ms => .ok (.object ms)

/-- The document of an `Identify`. -/
def Identify.toJson (lib : Stdlib) (m : Identify) : Except Error Json :=
  match marshalFields lib m.fields with
  | .error err => .error err
  | .ok ms => .ok (.object ms)

/-- The documents of a slice of events, in order, stopping at the first error. -/
def eventsToJson (lib : Stdlib) : List Event → Except Error (List Json)
  | [] => .ok []
  | e :: es =>
    match e.toJson lib with
    | .error err => .error err
    | .ok j =>
      match eventsToJson lib es with
      | .error err => .error err
      | .ok js => .ok (j :: js)

/-- The document of an `EventRequest`: `api_key` then `events`, each under
`omitempty` (an empty key and an empty or nil slice are left out). -/
def EventRequest.toJson (lib : Stdlib) (req : EventRequest) : Except Error Json :=
  let keyPart : List (GoString × Json) :=
    if req.ApiKey.length = 0 then [] else [(str "api_key", .string req.ApiKey)]
  if req.Events.length = 0 then .ok (.object keyPart)
  else
    match eventsToJson lib req.Events with
    | .error err => .error err
    | .ok js => .ok (.object (keyPart ++ [(str "events", .array js)]))

/-- The call `json.Marshal(msg)` on an `Event`. -/
def Event.jsonMarshal (lib : Stdlib) (e : Event) : Except Error GoString :=
  (e.toJson lib).map Json.render

/-- The call `json.Marshal(msg)` of `Identify`. -/
def Identify.jsonMarshal (lib : Stdlib) (m : Identify) : Except Error GoString :=
  (m.toJson lib).map Json.render

/-- The call `json.Marshal(req)` of `Events`. -/
def EventRequest.jsonMarshal (lib : Stdlib) (req : EventRequest) : Except Error GoString :=
  (req.toJson lib).map Json.render

/-- A stand-in library for concrete evaluations: floats are written as their
bit pattern in decimal and a gzip stream is the two magic bytes followed by the
payload.  It is not the real formatting or DEFLATE; the theorems below hold for
every `Stdlib`. -/
def Stdlib.sample : Stdlib where
  formatFloat bits := formatInt bits
  gzip b := 0x1F :: 0x8B :: b
  gunzip
    | _ :: _ :: b => some b
    | _ => none
  gunzip_gzip _ := rfl

/-! ## `net/url`: form values -/

/-- The type `url.Values` (`map[string][]string`): each key with its values. -/
abbrev Values := List (GoString × List GoString)

/-- The method `Values.Add`: append the value to the key's list. -/
def Values.Add : Values → GoString → GoString → Values
  | [], key, value => [(key, [value])]
  | (k, vs) :: rest, key, value =>
    if k = key then (k, vs ++ [value]) :: rest else (k, vs) :: Values.Add rest key value

/-- The test `shouldEscape(c, encodeQueryComponent)`: everything but letters,
digits and `-`, `_`, `.`, `~` is escaped. -/
def shouldEscape (c : Byte) : Bool :=
  !((0x61 ≤ c.val && c.val ≤ 0x7A) || (0x41 ≤ c.val && c.val ≤ 0x5A)
    || (0x30 ≤ c.val && c.val ≤ 0x39)
    || c.val = 0x2D || c.val = 0x5F || c.val = 0x2E || c.val = 0x7E)

/-- What `escape(s, encodeQueryComponent)` writes for one byte. -/
def escapeByte (c : Byte) : GoString :=
  if shouldEscape c then
    if c.val = 0x20 then [0x2B]
    else [0x25, upperhex (c.val / 16), upperhex (c.val % 16)]
  else [c]

/-- The function `url.QueryEscape`. -/
def QueryEscape (s : GoString) : GoString := s.flatMap escapeByte

/-- The pairs `key=value` of one key, each value escaped. -/
def encodePairs (keyEscaped : GoString) (vs : List GoString) : List GoString :=
  vs.map fun v => keyEscaped ++ [0x3D] ++ QueryEscape v

/-- Segments joined with `&`. -/
def joinAmp : List GoString → GoString
  | [] => []
  | seg :: rest =>
    match rest with
    | [] => seg
    | _ :: _ => seg ++ [0x26] ++ joinAmp rest

/-- The method `Values.Encode`: keys sorted, `key=value` pairs joined by `&`. -/
def Values.Encode (v : Values) : GoString :=
  joinAmp ((sortByKey v).flatMap fun kv => encodePairs (QueryEscape kv.1) kv.2)

/-- The test `ishex`. -/
def ishex (c : Byte) : Bool :=
  (0x30 ≤ c.val && c.val ≤ 0x39) || (0x61 ≤ c.val && c.val ≤ 0x66)
    || (0x41 ≤ c.val && c.val ≤ 0x46)

/-- The function `unhex`. -/
def unhex (c : Byte) : Nat :=
  if 0x30 ≤ c.val ∧ c.val ≤ 0x39 then c.val - 0x30
  else if 0x61 ≤ c.val ∧ c.val ≤ 0x66 then c.val - 0x61 + 10
  else if 0x41 ≤ c.val ∧ c.val ≤ 0x46 then c.val - 0x41 + 10
  else 0

/-- The function `url.QueryUnescape`; `none` is its `EscapeError`. -/
def QueryUnescape : GoString → Option GoString
  | [] => some []
  | c :: rest =>
    if c.val = 0x25 then
      match rest with
      | h :: l :: rest2 =>
        if ishex h && ishex l then
          (QueryUnescape rest2).map fun t => Fin.ofNat (unhex h * 16 + unhex l) :: t
        else none
      | _ => none
    else if c.val = 0x2B then (QueryUnescape rest).map fun t => 0x20 :: t
    else (QueryUnescape rest).map fun t => c :: t

/-- The pieces of a string between occurrences of a separator byte. -/
def splitOnByte (sep : Byte) : GoString → List GoString
  | [] => [[]]
  | c :: rest =>
    if c = sep then [] :: splitOnByte sep rest
    else
      match splitOnByte sep rest with
      | [] => [[c]]
      | seg :: segs => (c :: seg) :: segs

/-- The function `strings.Cut(s, "=")` without its flag: before and after the
first `=`, or the whole string and the empty string. -/
def cutEq : GoString → GoString × GoString
  | [] => ([], [])
  | c :: rest =>
    if c.val = 0x3D then ([], rest)
    else ((c :: (cutEq rest).1), (cutEq rest).2)

/-- An error of `url.ParseQuery`. -/
inductive QueryError where
  | invalidSemicolon
  | invalidEscape
  deriving DecidableEq, Repr

/-- The loop of `parseQuery` over the `&`-separated segments: the values
gathered and the first error met. -/
def parseSegments : List GoString → Values → Option QueryError → Values × Option QueryError
  | [], m, err => (m, err)
  | seg :: rest, m, err =>
    if seg.any (fun c => c.val = 0x3B) then parseSegments rest m (some .invalidSemicolon)
    else if seg.length = 0 then parseSegments rest m err
    else
      match QueryUnescape (cutEq seg).1 with
      | none => parseSegments rest m (err.orElse fun _ => some .invalidEscape)
      | some key =>
        match QueryUnescape (cutEq seg).2 with
        | none => parseSegments rest m (err.orElse fun _ => some .invalidEscape)
        | some value => parseSegments rest (Values.Add m key value) err

/-- The function `url.ParseQuery`, the decoder a form body is read back with. -/
def ParseQuery (query : GoString) : Values × Option QueryError :=
  parseSegments (splitOnByte 0x26 query) [] none

/-! ## `net/http`: headers, requests, responses -/

/-- The type `http.Header` (`map[string][]string`). -/
abbrev Header := List (GoString × List GoString)

/-- The token bytes of a header field name (`validHeaderFieldByte`). -/
def validHeaderFieldByte (c : Byte) : Bool :=
  c.val = 0x21 || (0x23 ≤ c.val && c.val ≤ 0x27) || c.val = 0x2A || c.val = 0x2B
    || c.val = 0x2D || c.val = 0x2E || (0x30 ≤ c.val && c.val ≤ 0x39)
    || (0x41 ≤ c.val && c.val ≤ 0x5A) || (0x5E ≤ c.val && c.val ≤ 0x7A)
    || c.val = 0x7C || c.val = 0x7E

/-- The loop of `canonicalMIMEHeaderKey`: upper case at the start and after a
dash, lower case elsewhere. -/
def canonicalFrom : Bool → GoString → GoString
  | _, [] => []
  | upper, c :: rest =>
    let c1 : Byte :=
      if upper && (0x61 ≤ c.val && c.val ≤ 0x7A) then Fin.ofNat (c.val - 32)
      else if !upper && (0x41 ≤ c.val && c.val ≤ 0x5A) then Fin.ofNat (c.val + 32)
      else c
    c1 :: canonicalFrom (c1.val = 0x2D) rest

/-- The function `textproto.CanonicalMIMEHeaderKey`: a key holding a byte
that is no token byte is returned unchanged. -/
def CanonicalMIMEHeaderKey (s : GoString) : GoString :=
  if s.all validHeaderFieldByte then canonicalFrom true s else s

/-- The method `Header.Set`: the canonical key now holds exactly this value. -/
def Header.Set (h : Header) (key value : GoString) : Header :=
  let k := CanonicalMIMEHeaderKey key
  if h.any (fun e => e.1 = k) then
    h.map fun e => if e.1 = k then (k, [value]) else e
  else h ++ [(k, [value])]

/-- The method `Header.Get`: the first value of the canonical key, or `""`. -/
def Header.Get (h : Header) (key : GoString) : GoString :=
  match h.find? fun e => e.1 = CanonicalMIMEHeaderKey key with
  | some (_, v :: _) => v
  | _ => []

/-- The parts of an `*http.Request` the operations set. -/
structure Request where
  Method : GoString
  URL : GoString
  Header : Header
  Body : GoString
  /-- The duration, in nanoseconds, of the deadline of the request context;
  `none` for the background context. -/
  timeout : Option Nat
  deriving DecidableEq

/-- The parts of an `*http.Response` the caller of the client can observe. -/
structure Response where
  StatusCode : Nat
  Body : GoString
  /-- What `Body.Close()` returns. -/
  closeErr : Option Error
  deriving DecidableEq

/-- The held `*http.Client`, seen through `Do`: a response, or an error
(connection, DNS, TLS, deadline exceeded). -/
abbrev HttpClient := Request → Except Error Response

/-- The function `http.NewRequestWithContext` for a method and URL it accepts. -/
def NewRequestWithContext (timeout : Option Nat) (method url body : GoString) : Request :=
  { Method := method, URL := url, Header := [], Body := body, timeout := timeout }

/-- The request `(*http.Client).PostForm` builds before it calls `Do`. -/
def postFormRequest (url : GoString) (data : Values) : Request :=
  let req := NewRequestWithContext none (str "POST") url data.Encode
  { req with Header := req.Header.Set (str "Content-Type")
                         (str "application/x-www-form-urlencoded") }

/-! ## The client (client.go) -/

/-- The constant `eventEndpoint`, line 14. -/
def eventEndpoint : GoString := str "https://api2.amplitude.com/2/httpapi"

/-- The constant `identifyEndpoint`, line 15. -/
def identifyEndpoint : GoString := str "https://api.amplitude.com/identify"

/-- The struct `Client`, lines 18-23. -/
structure Client where
  eventEndpoint : GoString
  identifyEndpoint : GoString
  key : GoString
  client : HttpClient

/-- The `*http.Client` that `new(http.Client)` allocates is not part of this
package; `New` takes the behaviour of its `Do` as an argument. -/
def New (defaultClient : HttpClient) (key : GoString) : Client :=
  { eventEndpoint := eventEndpoint,
    identifyEndpoint := identifyEndpoint,
    key := key,
    client := defaultClient }

/-- The method `SetClient`, lines 102-104. -/
def Client.SetClient (c : Client) (client : HttpClient) : Client :=
  { c with client := client }

/-- What one call of an operation did: the error returned (`none` is `nil`),
the requests handed to the held HTTP client, and the responses whose body was
closed. -/
structure Outcome where
  err : Option Error
  sent : List Request
  closed : List Response
  deriving DecidableEq

/-- The duration `5*time.Second` in nanoseconds. -/
def fiveSeconds : Nat := 5 * 1000000000

/-- The method `Events`, lines 106-140.  Three error returns of the source have
no outcome here because they cannot be taken: `g.Write` and `g.Close` write to
a `bytes.Buffer` (lines 120-125), and `http.NewRequestWithContext` is given a
live context, the method "POST" and the constant URL (lines 127-130). -/
def Client.Events (lib : Stdlib) (c : Client) (events : List Event) : Outcome :=
  let req : EventRequest := { ApiKey := c.key, Events := events }
  match req.jsonMarshal lib with
  | .error err => { err := some err, sent := [], closed := [] }
  | .ok evJson =>
    let buf := lib.gzip evJson
    -- line 127 names the package constant; the field would be written c.eventEndpoint
    let r := NewRequestWithContext (some fiveSeconds) (str "POST") Amplitude.eventEndpoint buf
    let r := { r with Header := r.Header.Set (str "content-type") (str "application/json") }
    let r := { r with Header := r.Header.Set (str "content-encoding") (str "gzip") }
    match c.client r with
    | .ok resp => { err := resp.closeErr, sent := [r], closed := [resp] }
    | .error err => { err := some err, sent := [r], closed := [] }

/-- The method `Event`, lines 142-144. -/
def Client.Event (lib : Stdlib) (c : Client) (msg : Event) : Outcome :=
  c.Events lib [msg]

/-- The method `Identify`, lines 146-161.  `PostForm` builds its request from
the constant URL and the encoded form and passes it to `Do`; the result of
`resp.Body.Close()` is discarded (line 158). -/
def Client.Identify (lib : Stdlib) (c : Client) (msg : Identify) : Outcome :=
  match msg.jsonMarshal lib with
  | .error err => { err := some err, sent := [], closed := [] }
  | .ok msgJson =>
    let values : Values := []
    let values := values.Add (str "api_key") c.key
    let values := values.Add (str "identification") msgJson
    -- line 156 names the package constant; the field would be written c.identifyEndpoint
    let r := postFormRequest Amplitude.identifyEndpoint values
    match c.client r with
    | .ok resp => { err := none, sent := [r], closed := [resp] }
    | .error err => { err := some err, sent := [r], closed := [] }

/-! ## Reading a JSON string literal back -/

/-- The function `utf8.AppendRune`: a surrogate or a value above U+10FFFF is
written as U+FFFD. -/
def EncodeRune (r : Nat) : GoString :=
  if (0xD800 ≤ r ∧ r ≤ 0xDFFF) ∨ 0x10FFFF < r then encodeRune RuneError else encodeRune r

/-- The function `getu4` of `encoding/json`: the value of a leading `\uXXXX`. -/
def getu4 : GoString → Option Nat
  | c0 :: c1 :: a :: b :: c :: d :: _ =>
    if c0.val = 0x5C ∧ c1.val = 0x75 ∧ ishex a ∧ ishex b ∧ ishex c ∧ ishex d then
      some (((unhex a * 16 + unhex b) * 16 + unhex c) * 16 + unhex d)
    else none
  | _ => none

/-- The function `utf16.DecodeRune`: the code point of a surrogate pair, or
U+FFFD when the two values are no pair. -/
def utf16DecodeRune (r1 r2 : Nat) : Nat :=
  if 0xD800 ≤ r1 ∧ r1 < 0xDC00 ∧ 0xDC00 ≤ r2 ∧ r2 < 0xE000 then
    (r1 - 0xD800) * 1024 + (r2 - 0xDC00) + 0x10000
  else RuneError

/-- The loop of `unquoteBytes` of `encoding/json` over the text between the
quotes, one step per unit of fuel: an escape is replaced by what it denotes,
an unescaped quote or control byte is an error (`none`), and a byte that is
not valid UTF-8 is read as U+FFFD. -/
def unquoteBody : Nat → GoString → Option GoString
  | _, [] => some []
  | 0, _ :: _ => none
  | fuel + 1, c :: rest =>
    if c.val = 0x5C then
      match rest with
      | [] => none
      | e :: rest1 =>
        if e.val = 0x22 ∨ e.val = 0x5C ∨ e.val = 0x2F ∨ e.val = 0x27 then
          (unquoteBody fuel rest1).map fun t => e :: t
        else if e.val = 0x62 then (unquoteBody fuel rest1).map fun t => 0x08 :: t
        else if e.val = 0x66 then (unquoteBody fuel rest1).map fun t => 0x0C :: t
        else if e.val = 0x6E then (unquoteBody fuel rest1).map fun t => 0x0A :: t
        else if e.val = 0x72 then (unquoteBody fuel rest1).map fun t => 0x0D :: t
        else if e.val = 0x74 then (unquoteBody fuel rest1).map fun t => 0x09 :: t
        else if e.val = 0x75 then
          match getu4 (c :: rest) with
          | none => none
          | some rr =>
            if 0xD800 ≤ rr ∧ rr < 0xE000 then
              let dec := utf16DecodeRune rr ((getu4 (rest.drop 5)).getD 0)
              if dec ≠ RuneError then
                (unquoteBody fuel (rest.drop 11)).map fun t => EncodeRune dec ++ t
              else (unquoteBody fuel (rest.drop 5)).map fun t => EncodeRune RuneError ++ t
            else (unquoteBody fuel (rest.drop 5)).map fun t => EncodeRune rr ++ t
        else none
    else if c.val = 0x22 ∨ c.val < 0x20 then none
    else if c.val < 0x80 then (unquoteBody fuel rest).map fun t => c :: t
    else
      (unquoteBody fuel (rest.drop ((decodeRune (c :: rest)).2 - 1))).map fun t =>
        EncodeRune (decodeRune (c :: rest)).1 ++ t

/-- The function `unquote` of `encoding/json`: the string a JSON string literal
denotes, `none` when the text is no string literal. -/
def unquote : GoString → Option GoString
  | [] => none
  | q :: rest =>
    if q.val = 0x22 ∧ rest.getLast? = some 0x22 then unquoteBody rest.length rest.dropLast
    else none

/-- A string with each byte that is not part of a valid UTF-8 sequence
replaced by U+FFFD; `skip` counts the remaining bytes of a sequence already
accepted. -/
def coerceFrom : Nat → GoString → GoString
  | _, [] => []
  | k + 1, b :: rest => b :: coerceFrom k rest
  | 0, b :: rest =>
    if b.val < 0x80 then b :: coerceFrom 0 rest
    else
      let d := decodeRune (b :: rest)
      if d.1 = RuneError ∧ d.2 = 1 then encodeRune RuneError ++ coerceFrom 0 rest
      else b :: coerceFrom (d.2 - 1) rest

/-- The string a JSON reader gets back for a Go string: invalid bytes replaced
by U+FFFD (`strings.ToValidUTF8` byte by byte). -/
def coerceUTF8 (s : GoString) : GoString := coerceFrom 0 s

/-- The loop of `utf8.ValidString`. -/
def validFrom : Nat → GoString → Bool
  | _, [] => true
  | k + 1, _ :: rest => validFrom k rest
  | 0, b :: rest =>
    if b.val < 0x80 then validFrom 0 rest
    else
      let d := decodeRune (b :: rest)
      if d.1 = RuneError ∧ d.2 = 1 then false else validFrom (d.2 - 1) rest

/-- The function `utf8.ValidString`. -/
def ValidString (s : GoString) : Bool := validFrom 0 s

/-! ## The request each operation builds -/

/-- The request `Events` hands to the HTTP client for a marshalled body. -/
def eventsRequest (lib : Stdlib) (evJson : GoString) : Request :=
  { Method := str "POST", URL := eventEndpoint,
    Header := [(str "Content-Type", [str "application/json"]),
               (str "Content-Encoding", [str "gzip"])],
    Body := lib.gzip evJson, timeout := some fiveSeconds }

/-- The request `Identify` hands to the HTTP client for a marshalled record. -/
def identifyRequest (key msgJson : GoString) : Request :=
  { Method := str "POST", URL := identifyEndpoint,
    Header := [(str "Content-Type", [str "application/x-www-form-urlencoded"])],
    Body := str "api_key=" ++ QueryEscape key ++ str "&identification=" ++ QueryEscape msgJson,
    timeout := none }

/-- The members of the document of an event request, given the documents of
its events: `api_key` unless the key is empty,
then `events` unless the slice is empty. -/
def requestMembers (key : GoString) (js : List Json) : List (GoString × Json) :=
  (if key.length = 0 then [] else [(str "api_key", Json.string key)])
    ++ (if js.length = 0 then [] else [(str "events", Json.array js)])

/-! ## Sanity checks of the embedding -/

example : quote (str "a<b\"\n") = str "\"a\\u003cb\\\"\\n\"" := by decide
example : (Json.array [.null, .object [(str "a", .number (formatInt (-12)))]]).render
    = str "[null,\x7b\"a\":-12\x7d]" := by decide
example : quote [0xE2, 0x80, 0xA8, 0x41, 0xFF, 0xC3, 0xA9]
    = str "\"\\u2028A\\ufffdé\"" := by decide

example : (Event.jsonMarshal Stdlib.sample {}) = .ok (str "\x7b\x7d") := by decide
set_option maxRecDepth 100000 in
example : (Event.jsonMarshal Stdlib.sample
    { EventType := str "login", UserId := str "u1", Quantity := 3,
      EventProperties := [(str "b", .bool true), (str "a", .slice [.nil, .int 4])] })
    = .ok (str "\x7b\"event_properties\":\x7b\"a\":[null,4],\"b\":true\x7d,\"event_type\":\"login\",\"quantity\":3,\"user_id\":\"u1\"\x7d") := by decide

example : QueryEscape (str "a b&c=d%é~") = str "a+b%26c%3Dd%25%C3%A9~" := by decide
example : ParseQuery (str "a=1&b=x+y%21&a=2")
    = ([(str "a", [str "1", str "2"]), (str "b", [str "x y!"])], none) := by decide
example : CanonicalMIMEHeaderKey (str "content-type") = str "Content-Type" := by decide

example : unquote (quote (str "a<b\"\n\\é\x01")) = some (str "a<b\"\n\\é\x01") := by decide
example : unquote (quote [0x6B, 0xFF]) = some (str "k\uFFFD") := by decide
example : unquote (str "\"\\ud83d\\ude00 \\u00e9\\/\"") = some (str "😀 é/") := by decide
example : ValidString [0x6B, 0xFF] = false ∧ ValidString (str "k€😀") = true := by decide

/-! ## The shape of the two operations -/

theorem events_headers :
    (Header.Set (Header.Set [] (str "content-type") (str "application/json"))
      (str "content-encoding") (str "gzip"))
    = [(str "Content-Type", [str "application/json"]),
       (str "Content-Encoding", [str "gzip"])] := by
  decide

theorem form_header :
    Header.Set [] (str "Content-Type") (str "application/x-www-form-urlencoded")
    = [(str "Content-Type", [str "application/x-www-form-urlencoded"])] := by
  decide

theorem Events_eq (lib : Stdlib) (c : Client) (events : List Event) :
    c.Events lib events =
      match EventRequest.jsonMarshal lib { ApiKey := c.key, Events := events } with
      | .error err => { err := some err, sent := [], closed := [] }
      | .ok evJson =>
        match c.client (eventsRequest lib evJson) with
        | .ok resp =>
          { err := resp.closeErr, sent := [eventsRequest lib evJson], closed := [resp] }
        | .error err => { err := some err, sent := [eventsRequest lib evJson], closed := [] } := by
  simp only [Client.Events, NewRequestWithContext, events_headers, eventsRequest]

theorem form_values (key msgJson : GoString) :
    Values.Encode (Values.Add (Values.Add [] (str "api_key") key) (str "identification") msgJson)
    = str "api_key=" ++ QueryEscape key ++ str "&identification=" ++ QueryEscape msgJson := by
  have h1 : (str "api_key" = str "identification") = False := by decide
  have h2 : (str "api_key" ≤ str "identification") = True := by decide
  have h3 : QueryEscape (str "api_key") = str "api_key" := by decide
  have h4 : QueryEscape (str "identification") = str "identification" := by decide
  have h5 : str "api_key=" = str "api_key" ++ [0x3D] := by decide
  have h6 : str "&identification=" = [0x26] ++ str "identification" ++ [0x3D] := by decide
  have hv : Values.Add (Values.Add [] (str "api_key") key) (str "identification") msgJson
      = [(str "api_key", [key]), (str "identification", [msgJson])] := by
    simp only [Values.Add, h1, if_false]
  have hs : sortByKey [(str "api_key", [key]), (str "identification", [msgJson])]
      = [(str "api_key", [key]), (str "identification", [msgJson])] := by
    simp only [sortByKey, List.insertionSort, List.orderedInsert, h2, if_true]
  rw [hv, Values.Encode, hs, h5, h6]
  simp [encodePairs, joinAmp, h3, h4]

theorem Identify_eq (lib : Stdlib) (c : Client) (msg : Identify) :
    c.Identify lib msg =
      match msg.jsonMarshal lib with
      | .error err => { err := some err, sent := [], closed := [] }
      | .ok msgJson =>
        match c.client (identifyRequest c.key msgJson) with
        | .ok resp =>
          { err := none, sent := [identifyRequest c.key msgJson], closed := [resp] }
        | .error err =>
          { err := some err, sent := [identifyRequest c.key msgJson], closed := [] } := by
  simp only [Client.Identify, postFormRequest, NewRequestWithContext, form_header, form_values,
    identifyRequest]

set_option maxRecDepth 100000 in
theorem marshal_login (lib : Stdlib) :
    EventRequest.jsonMarshal lib
      { ApiKey := str "k1", Events := [{ EventType := str "login", UserId := str "u1" }] }
    = .ok (str "\x7b\"api_key\":\"k1\",\"events\":[\x7b\"event_type\":\"login\",\"user_id\":\"u1\"\x7d]\x7d") := by
  rfl

set_option maxRecDepth 100000 in
theorem marshal_ios (lib : Stdlib) :
    Identify.jsonMarshal lib { UserId := str "u1", Platform := str "ios" }
    = .ok (str "\x7b\"platform\":\"ios\",\"user_id\":\"u1\"\x7d") := by
  rfl

set_option maxRecDepth 100000

theorem Events_sent_of_ok (lib : Stdlib) (c : Client) (events : List Event) (evJson : GoString)
    (h : EventRequest.jsonMarshal lib { ApiKey := c.key, Events := events } = .ok evJson) :
    (c.Events lib events).sent = [eventsRequest lib evJson] := by
  rw [Events_eq, h]
  simp only []
  split <;> rfl

theorem Identify_sent_of_ok (lib : Stdlib) (c : Client) (msg : Identify) (msgJson : GoString)
    (h : msg.jsonMarshal lib = .ok msgJson) :
    (c.Identify lib msg).sent = [identifyRequest c.key msgJson] := by
  rw [Identify_eq, h]
  simp only []
  split <;> rfl

/-! ## Claims about single calls -/

/-- C3: for the client built by `New("k1")`, `Event(Event{EventType: "login",
UserId: "u1"})` hands the HTTP client exactly one request: a POST to
`https://api2.amplitude.com/2/httpapi` with headers `content-type:
application/json` and `content-encoding: gzip`, whose body gunzips to exactly
the JSON text with `api_key` "k1" and the one event `event_type` "login",
`user_id` "u1". -/
theorem event_login_request (lib : Stdlib) (hc : HttpClient) :
    ∃ r : Request,
      ((New hc (str "k1")).Event lib { EventType := str "login", UserId := str "u1" }).sent = [r]
      ∧ r.Method = str "POST"
      ∧ r.URL = str "https://api2.amplitude.com/2/httpapi"
      ∧ r.Header.Get (str "content-type") = str "application/json"
      ∧ r.Header.Get (str "content-encoding") = str "gzip"
      ∧ lib.gunzip r.Body = some (str
          "\x7b\"api_key\":\"k1\",\"events\":[\x7b\"event_type\":\"login\",\"user_id\":\"u1\"\x7d]\x7d") := by
  refine ⟨eventsRequest lib (str
    "\x7b\"api_key\":\"k1\",\"events\":[\x7b\"event_type\":\"login\",\"user_id\":\"u1\"\x7d]\x7d"),
    ?_, rfl, rfl, rfl, rfl, lib.gunzip_gzip _⟩
  exact Events_sent_of_ok lib (New hc (str "k1")) _ _ (marshal_login lib)

/-- C4: for the client built by `New("k1")`, `Identify(Identify{UserId: "u1",
Platform: "ios"})` hands the HTTP client exactly one request: a form POST to
`https://api.amplitude.com/identify` whose body is exactly
`api_key=k1&identification=%7B%22platform%22%3A%22ios%22%2C%22user_id%22%3A%22u1%22%7D`. -/
theorem identify_ios_request (lib : Stdlib) (hc : HttpClient) :
    ∃ r : Request,
      ((New hc (str "k1")).Identify lib { UserId := str "u1", Platform := str "ios" }).sent = [r]
      ∧ r.Method = str "POST"
      ∧ r.URL = str "https://api.amplitude.com/identify"
      ∧ r.Header.Get (str "Content-Type") = str "application/x-www-form-urlencoded"
      ∧ r.Body = str
          "api_key=k1&identification=%7B%22platform%22%3A%22ios%22%2C%22user_id%22%3A%22u1%22%7D" := by
  refine ⟨identifyRequest (str "k1") (str "\x7b\"platform\":\"ios\",\"user_id\":\"u1\"\x7d"),
    ?_, rfl, by decide, by decide, by decide⟩
  exact Identify_sent_of_ok lib (New hc (str "k1")) _ _ (marshal_ios lib)

/-- C6, as stated, fails for `Events`: the HTTP client returns a response with
status 200 whose body reports error 7 on `Close`, and `Events` returns that
error instead of nil (while `Identify`, given the same response, returns nil). -/
theorem events_returns_close_error :
    (Client.Events Stdlib.sample
        (New (fun _ => .ok { StatusCode := 200, Body := [], closeErr := some (.other 7) })
          (str "k1"))
        [{ EventType := str "login" }]).err = some (.other 7)
    ∧ (Client.Identify Stdlib.sample
        (New (fun _ => .ok { StatusCode := 200, Body := [], closeErr := some (.other 7) })
          (str "k1"))
        { UserId := str "u1" }).err = none := by
  constructor <;> rfl

/-- C6, amended: whenever a request was handed to the HTTP client and it
answered with a response, whatever the status code, `Events` and `Identify`
each close that response body (and no other); `Identify` returns nil and
`Events` returns what closing the body returned, nil when the close succeeds.
Neither result depends on the status code or the body content. -/
theorem response_closed_and_result (lib : Stdlib) (c : Client) (events : List Event)
    (msg : Identify) (r : Request) (resp : Response) (hresp : c.client r = .ok resp) :
    ((c.Events lib events).sent = [r] →
        (c.Events lib events).closed = [resp] ∧ (c.Events lib events).err = resp.closeErr)
    ∧ ((c.Identify lib msg).sent = [r] →
        (c.Identify lib msg).closed = [resp] ∧ (c.Identify lib msg).err = none) := by
  constructor
  · rw [Events_eq]
    cases EventRequest.jsonMarshal lib { ApiKey := c.key, Events := events } with
    | error err => intro h; simp at h
    | ok evJson =>
      simp only []
      cases hq : c.client (eventsRequest lib evJson) with
      | error e =>
        intro h
        simp only [List.cons.injEq, and_true] at h
        rw [h, hresp] at hq
        cases hq
      | ok resp2 =>
        intro h
        simp only [List.cons.injEq, and_true] at h
        rw [h, hresp] at hq
        cases hq
        exact ⟨rfl, rfl⟩
  · rw [Identify_eq]
    cases msg.jsonMarshal lib with
    | error err => intro h; simp at h
    | ok msgJson =>
      simp only []
      cases hq : c.client (identifyRequest c.key msgJson) with
      | error e =>
        intro h
        simp only [List.cons.injEq, and_true] at h
        rw [h, hresp] at hq
        cases hq
      | ok resp2 =>
        intro h
        simp only [List.cons.injEq, and_true] at h
        rw [h, hresp] at hq
        cases hq
        exact ⟨rfl, rfl⟩

/-- Witness of C6 amended: a 503 response whose body closes cleanly, and the
one request each operation sends for a small input. -/
theorem response_closed_and_result_witness :
    ((Client.Events Stdlib.sample
        (New (fun _ => .ok { StatusCode := 503, Body := str "busy", closeErr := none }) (str "k1"))
        [{ EventType := str "login" }]).closed
        = [{ StatusCode := 503, Body := str "busy", closeErr := none }]
      ∧ (Client.Events Stdlib.sample
        (New (fun _ => .ok { StatusCode := 503, Body := str "busy", closeErr := none }) (str "k1"))
        [{ EventType := str "login" }]).err = none)
    ∧ ((Client.Identify Stdlib.sample
        (New (fun _ => .ok { StatusCode := 503, Body := str "busy", closeErr := none }) (str "k1"))
        { UserId := str "u1" }).closed
        = [{ StatusCode := 503, Body := str "busy", closeErr := none }]
      ∧ (Client.Identify Stdlib.sample
        (New (fun _ => .ok { StatusCode := 503, Body := str "busy", closeErr := none }) (str "k1"))
        { UserId := str "u1" }).err = none) :=
  ⟨(response_closed_and_result Stdlib.sample
      (New (fun _ => .ok { StatusCode := 503, Body := str "busy", closeErr := none }) (str "k1"))
      [{ EventType := str "login" }] { UserId := str "u1" }
      (eventsRequest Stdlib.sample
        (str "\x7b\"api_key\":\"k1\",\"events\":[\x7b\"event_type\":\"login\"\x7d]\x7d"))
      { StatusCode := 503, Body := str "busy", closeErr := none } rfl).1 (by rfl),
   (response_closed_and_result Stdlib.sample
      (New (fun _ => .ok { StatusCode := 503, Body := str "busy", closeErr := none }) (str "k1"))
      [{ EventType := str "login" }] { UserId := str "u1" }
      (identifyRequest (str "k1") (str "\x7b\"user_id\":\"u1\"\x7d"))
      { StatusCode := 503, Body := str "busy", closeErr := none } rfl).2 (by rfl)⟩

/-- C7: when `json.Marshal` of the input fails, `Events` and `Identify` return
that error, hand no request to the HTTP client and close no response. -/
theorem marshal_error_no_request (lib : Stdlib) (c : Client) (events : List Event)
    (msg : Identify) (err : Error) :
    (EventRequest.jsonMarshal lib { ApiKey := c.key, Events := events } = .error err →
        c.Events lib events = { err := some err, sent := [], closed := [] })
    ∧ (msg.jsonMarshal lib = .error err →
        c.Identify lib msg = { err := some err, sent := [], closed := [] }) := by
  constructor
  · intro h
    rw [Events_eq, h]
  · intro h
    rw [Identify_eq, h]

/-- Witness of C7: a channel stored in a property map cannot be marshalled. -/
theorem marshal_error_no_request_witness :
    Client.Events Stdlib.sample (New (fun _ => .error (.other 1)) (str "k1"))
        [{ EventType := str "login", EventProperties := [(str "ch", .chan)] }]
      = { err := some .unsupportedType, sent := [], closed := [] }
    ∧ Client.Identify Stdlib.sample (New (fun _ => .error (.other 1)) (str "k1"))
        { UserId := str "u1", UserProperties := [(str "ch", .chan)] }
      = { err := some .unsupportedType, sent := [], closed := [] } :=
  ⟨(marshal_error_no_request Stdlib.sample (New (fun _ => .error (.other 1)) (str "k1"))
      [{ EventType := str "login", EventProperties := [(str "ch", .chan)] }]
      { UserId := str "u1", UserProperties := [(str "ch", .chan)] } .unsupportedType).1 (by rfl),
   (marshal_error_no_request Stdlib.sample (New (fun _ => .error (.other 1)) (str "k1"))
      [{ EventType := str "login", EventProperties := [(str "ch", .chan)] }]
      { UserId := str "u1", UserProperties := [(str "ch", .chan)] } .unsupportedType).2 (by rfl)⟩

/-- C8: for every client, HTTP client behaviour and event `e`, `Event(e)` and
`Events([e])` have the same outcome: the same returned error, the same
requests (method, URL, headers, timeout and gzip body) and the same closed
responses. -/
theorem event_eq_events_singleton (lib : Stdlib) (c : Client) (e : Event) :
    c.Event lib e = c.Events lib [e]
    ∧ (c.Event lib e).err = (c.Events lib [e]).err
    ∧ (c.Event lib e).sent = (c.Events lib [e]).sent := by
  exact ⟨rfl, rfl, rfl⟩

/-- C9 fails on the code: with both endpoint fields of the client replaced,
`Events` and `Identify` still send to the package constants, not to the URLs
the client holds. -/
theorem endpoint_fields_ignored (lib : Stdlib) (hc : HttpClient) :
    ((Client.Events lib
        { eventEndpoint := str "http://localhost:8080/e",
          identifyEndpoint := str "http://localhost:8080/i", key := str "k1", client := hc }
        [{ EventType := str "login" }]).sent.map Request.URL)
      = [str "https://api2.amplitude.com/2/httpapi"]
    ∧ ((Client.Identify lib
        { eventEndpoint := str "http://localhost:8080/e",
          identifyEndpoint := str "http://localhost:8080/i", key := str "k1", client := hc }
        { UserId := str "u1" }).sent.map Request.URL)
      = [str "https://api.amplitude.com/identify"] := by
  constructor
  · have h : EventRequest.jsonMarshal lib
        { ApiKey := str "k1", Events := [{ EventType := str "login" }] }
        = .ok (str "\x7b\"api_key\":\"k1\",\"events\":[\x7b\"event_type\":\"login\"\x7d]\x7d") := by
      rfl
    rw [Events_sent_of_ok lib _ _ _ h]
    rfl
  · have h : Identify.jsonMarshal lib { UserId := str "u1" }
        = .ok (str "\x7b\"user_id\":\"u1\"\x7d") := by
      rfl
    rw [Identify_sent_of_ok lib _ _ _ h]
    rfl


/-! ## A string literal read back -/

theorem escapeFrom_zero_copy (copy : Bool) (s : GoString) :
    escapeFrom 0 copy s = escapeFrom 0 true s := by
  cases s with
  | nil => simp [escapeFrom]
  | cons b rest => simp [escapeFrom]

theorem escapeASCII_spec (b : Byte) (hb : b.val < 0x80) :
    (escapeASCII b = [b] ∧ b.val ≠ 0x5C ∧ b.val ≠ 0x22 ∧ ¬ b.val < 0x20)
    ∨ (escapeASCII b = [0x5C, b] ∧ (b.val = 0x22 ∨ b.val = 0x5C))
    ∨ (escapeASCII b = [0x5C, 0x62] ∧ b = 0x08)
    ∨ (escapeASCII b = [0x5C, 0x66] ∧ b = 0x0C)
    ∨ (escapeASCII b = [0x5C, 0x6E] ∧ b = 0x0A)
    ∨ (escapeASCII b = [0x5C, 0x72] ∧ b = 0x0D)
    ∨ (escapeASCII b = [0x5C, 0x74] ∧ b = 0x09)
    ∨ (escapeASCII b = [0x5C, 0x75, 0x30, 0x30, hexLower (b.val / 16), hexLower (b.val % 16)]
        ∧ getu4 [0x5C, 0x75, 0x30, 0x30, hexLower (b.val / 16), hexLower (b.val % 16)]
            = some b.val) := by
  revert b
  decide

theorem getu4_append (p : GoString) (X : GoString) (r : Nat) (h : getu4 p = some r) :
    getu4 (p ++ X) = some r := by
  match p, h with
  | c0 :: c1 :: a :: b :: c :: d :: t, h =>
    simp only [List.cons_append, getu4] at h ⊢
    exact h

theorem unquoteBody_cons (fuel : Nat) (c : Byte) (rest : GoString) :
    unquoteBody (fuel + 1) (c :: rest) =
      if c.val = 0x5C then
        match rest with
        | [] => none
        | e :: rest1 =>
          if e.val = 0x22 ∨ e.val = 0x5C ∨ e.val = 0x2F ∨ e.val = 0x27 then
            (unquoteBody fuel rest1).map fun t => e :: t
          else if e.val = 0x62 then (unquoteBody fuel rest1).map fun t => 0x08 :: t
          else if e.val = 0x66 then (unquoteBody fuel rest1).map fun t => 0x0C :: t
          else if e.val = 0x6E then (unquoteBody fuel rest1).map fun t => 0x0A :: t
          else if e.val = 0x72 then (unquoteBody fuel rest1).map fun t => 0x0D :: t
          else if e.val = 0x74 then (unquoteBody fuel rest1).map fun t => 0x09 :: t
          else if e.val = 0x75 then
            match getu4 (c :: rest) with
            | none => none
            | some rr =>
              if 0xD800 ≤ rr ∧ rr < 0xE000 then
                let dec := utf16DecodeRune rr ((getu4 (rest.drop 5)).getD 0)
                if dec ≠ RuneError then
                  (unquoteBody fuel (rest.drop 11)).map fun t => EncodeRune dec ++ t
                else (unquoteBody fuel (rest.drop 5)).map fun t => EncodeRune RuneError ++ t
              else (unquoteBody fuel (rest.drop 5)).map fun t => EncodeRune rr ++ t
          else none
      else if c.val = 0x22 ∨ c.val < 0x20 then none
      else if c.val < 0x80 then (unquoteBody fuel rest).map fun t => c :: t
      else
        (unquoteBody fuel (rest.drop ((decodeRune (c :: rest)).2 - 1))).map fun t =>
          EncodeRune (decodeRune (c :: rest)).1 ++ t := by
  rfl

theorem step_plain (fuel : Nat) (c : Byte) (X : GoString) (h1 : c.val ≠ 0x5C)
    (h2 : c.val ≠ 0x22) (h3 : ¬ c.val < 0x20) (h4 : c.val < 0x80) :
    unquoteBody (fuel + 1) (c :: X) = (unquoteBody fuel X).map fun t => c :: t := by
  rw [unquoteBody_cons]
  simp only [h1, h2, h3, h4, if_false, if_true, or_self]

theorem step_quoted (fuel : Nat) (b : Byte) (X : GoString) (h : b.val = 0x22 ∨ b.val = 0x5C) :
    unquoteBody (fuel + 1) (0x5C :: b :: X) = (unquoteBody fuel X).map fun t => b :: t := by
  rw [unquoteBody_cons]
  have h0 : ((0x5C : Byte).val = 0x5C) = True := by decide
  have h1 : (b.val = 0x22 ∨ b.val = 0x5C ∨ b.val = 0x2F ∨ b.val = 0x27) = True := by
    rcases h with h | h <;> simp [h]
  simp only [h0, if_true, h1]

theorem step_short (fuel : Nat) (X : GoString) :
    unquoteBody (fuel + 1) (0x5C :: 0x62 :: X) = ((unquoteBody fuel X).map fun t => 0x08 :: t)
    ∧ unquoteBody (fuel + 1) (0x5C :: 0x66 :: X) = ((unquoteBody fuel X).map fun t => 0x0C :: t)
    ∧ unquoteBody (fuel + 1) (0x5C :: 0x6E :: X) = ((unquoteBody fuel X).map fun t => 0x0A :: t)
    ∧ unquoteBody (fuel + 1) (0x5C :: 0x72 :: X) = ((unquoteBody fuel X).map fun t => 0x0D :: t)
    ∧ unquoteBody (fuel + 1) (0x5C :: 0x74 :: X) = ((unquoteBody fuel X).map fun t => 0x09 :: t) := by
  refine ⟨?_, ?_, ?_, ?_, ?_⟩ <;> rw [unquoteBody_cons] <;> rfl

theorem step_u4 (fuel : Nat) (a b c d : Byte) (X : GoString) (r : Nat)
    (h : getu4 [0x5C, 0x75, a, b, c, d] = some r) (hs : ¬ (0xD800 ≤ r ∧ r < 0xE000)) :
    unquoteBody (fuel + 1) (0x5C :: 0x75 :: a :: b :: c :: d :: X)
      = (unquoteBody fuel X).map fun t => EncodeRune r ++ t := by
  have hg : getu4 (0x5C :: 0x75 :: a :: b :: c :: d :: X) = some r :=
    getu4_append [0x5C, 0x75, a, b, c, d] X r h
  rw [unquoteBody_cons]
  have h0 : ((0x5C : Byte).val = 0x5C) = True := by decide
  have h1 : ((0x75 : Byte).val = 0x22 ∨ (0x75 : Byte).val = 0x5C ∨ (0x75 : Byte).val = 0x2F
      ∨ (0x75 : Byte).val = 0x27) = False := by decide
  have h2 : ((0x75 : Byte).val = 0x62) = False := by decide
  have h3 : ((0x75 : Byte).val = 0x66) = False := by decide
  have h4 : ((0x75 : Byte).val = 0x6E) = False := by decide
  have h5 : ((0x75 : Byte).val = 0x72) = False := by decide
  have h6 : ((0x75 : Byte).val = 0x74) = False := by decide
  have h7 : ((0x75 : Byte).val = 0x75) = True := by decide
  simp only [h0, h1, h2, h3, h4, h5, h6, h7, if_true, if_false, hg, hs, List.drop_succ_cons,
    List.drop_zero]

theorem step_multi (fuel : Nat) (c : Byte) (rest : GoString) (hc : 0x80 ≤ c.val) :
    unquoteBody (fuel + 1) (c :: rest)
      = (unquoteBody fuel (rest.drop ((decodeRune (c :: rest)).2 - 1))).map fun t =>
          EncodeRune (decodeRune (c :: rest)).1 ++ t := by
  rw [unquoteBody_cons]
  have h1 : (c.val = 0x5C) = False := eq_false (by omega)
  have h2 : (c.val = 0x22 ∨ c.val < 0x20) = False := eq_false (by omega)
  have h3 : (c.val < 0x80) = False := eq_false (by omega)
  simp only [h1, h2, h3, if_false]

theorem leadInfo_spec (b : Byte) (hb : 0x80 ≤ b.val) :
    leadInfo b.val = none
    ∨ (leadInfo b.val = some (2, 0x80, 0xBF) ∧ 0xC2 ≤ b.val ∧ b.val ≤ 0xDF)
    ∨ (leadInfo b.val = some (3, 0xA0, 0xBF) ∧ b.val = 0xE0)
    ∨ (leadInfo b.val = some (3, 0x80, 0xBF) ∧ 0xE1 ≤ b.val ∧ b.val ≤ 0xEF ∧ b.val ≠ 0xED)
    ∨ (leadInfo b.val = some (3, 0x80, 0x9F) ∧ b.val = 0xED)
    ∨ (leadInfo b.val = some (4, 0x90, 0xBF) ∧ b.val = 0xF0)
    ∨ (leadInfo b.val = some (4, 0x80, 0xBF) ∧ 0xF1 ≤ b.val ∧ b.val ≤ 0xF3)
    ∨ (leadInfo b.val = some (4, 0x80, 0x8F) ∧ b.val = 0xF4) := by
  revert b
  decide

theorem decodeRune_none (b : Byte) (rest : GoString) (hb : 0x80 ≤ b.val)
    (hl : leadInfo b.val = none) : decodeRune (b :: rest) = (RuneError, 1) := by
  have h1 : ¬ b.val < 0x80 := by omega
  simp only [decodeRune, h1, if_false, hl]

theorem decodeRune_two (b : Byte) (rest : GoString) (lo hi : Nat) (hb : 0x80 ≤ b.val)
    (hl : leadInfo b.val = some (2, lo, hi)) :
    decodeRune (b :: rest) =
      match rest with
      | [] => (RuneError, 1)
      | s1 :: _ =>
        if s1.val < lo ∨ hi < s1.val then (RuneError, 1)
        else ((b.val % 32) * 64 + s1.val % 64, 2) := by
  have h1 : ¬ b.val < 0x80 := by omega
  cases rest with
  | nil => simp [decodeRune, h1, hl]
  | cons s1 t => simp [decodeRune, h1, hl]

theorem decodeRune_three (b : Byte) (rest : GoString) (lo hi : Nat) (hb : 0x80 ≤ b.val)
    (hl : leadInfo b.val = some (3, lo, hi)) :
    decodeRune (b :: rest) =
      match rest with
      | s1 :: s2 :: _ =>
        if s1.val < lo ∨ hi < s1.val then (RuneError, 1)
        else if !isCont s2.val then (RuneError, 1)
        else ((b.val % 16) * 4096 + (s1.val % 64) * 64 + s2.val % 64, 3)
      | _ => (RuneError, 1) := by
  have h1 : ¬ b.val < 0x80 := by omega
  match rest with
  | [] => simp [decodeRune, h1, hl]
  | [s1] => simp [decodeRune, h1, hl]
  | s1 :: s2 :: t => simp [decodeRune, h1, hl]

theorem decodeRune_four (b : Byte) (rest : GoString) (lo hi : Nat) (hb : 0x80 ≤ b.val)
    (hl : leadInfo b.val = some (4, lo, hi)) :
    decodeRune (b :: rest) =
      match rest with
      | s1 :: s2 :: s3 :: _ =>
        if s1.val < lo ∨ hi < s1.val then (RuneError, 1)
        else if !isCont s2.val then (RuneError, 1)
        else if !isCont s3.val then (RuneError, 1)
        else ((b.val % 8) * 262144 + (s1.val % 64) * 4096 + (s2.val % 64) * 64 + s3.val % 64, 4)
      | _ => (RuneError, 1) := by
  have h1 : ¬ b.val < 0x80 := by omega
  match rest with
  | [] => simp [decodeRune, h1, hl]
  | [s1] => simp [decodeRune, h1, hl]
  | [s1, s2] => simp [decodeRune, h1, hl]
  | s1 :: s2 :: s3 :: t => simp [decodeRune, h1, hl]

theorem ofNat_eq (n : Nat) (b : Byte) (h : n = b.val) : (Fin.ofNat n : Byte) = b := by
  apply Fin.ext
  show n % 256 = b.val
  have := b.isLt
  omega

theorem encode_two (b s1 : Byte) (h1 : 0xC2 ≤ b.val) (h2 : b.val ≤ 0xDF)
    (h3 : ¬ (s1.val < 0x80 ∨ 0xBF < s1.val)) :
    EncodeRune (b.val % 32 * 64 + s1.val % 64) = [b, s1]
    ∧ b.val % 32 * 64 + s1.val % 64 < 0x800 := by
  have c1 : ¬ ((0xD800 ≤ b.val % 32 * 64 + s1.val % 64 ∧ b.val % 32 * 64 + s1.val % 64 ≤ 0xDFFF)
      ∨ 0x10FFFF < b.val % 32 * 64 + s1.val % 64) := by omega
  have c2 : ¬ b.val % 32 * 64 + s1.val % 64 < 0x80 := by omega
  have c3 : b.val % 32 * 64 + s1.val % 64 < 0x800 := by omega
  refine ⟨?_, c3⟩
  simp only [EncodeRune, encodeRune, c1, c2, c3, if_false, if_true]
  rw [ofNat_eq _ b (by omega), ofNat_eq _ s1 (by omega)]

theorem encode_three (b s1 s2 : Byte) (lo hi : Nat) (h1 : 0xE0 ≤ b.val) (h2 : b.val ≤ 0xEF)
    (hlo : 0x80 ≤ lo) (hhi : hi ≤ 0xBF) (he0 : b.val = 0xE0 → 0xA0 ≤ lo)
    (hed : b.val = 0xED → hi ≤ 0x9F)
    (h3 : ¬ (s1.val < lo ∨ hi < s1.val)) (h4 : isCont s2.val = true) :
    EncodeRune (b.val % 16 * 4096 + s1.val % 64 * 64 + s2.val % 64) = [b, s1, s2] := by
  simp only [isCont, Bool.and_eq_true, decide_eq_true_eq] at h4
  have c1 : ¬ ((0xD800 ≤ b.val % 16 * 4096 + s1.val % 64 * 64 + s2.val % 64
      ∧ b.val % 16 * 4096 + s1.val % 64 * 64 + s2.val % 64 ≤ 0xDFFF)
      ∨ 0x10FFFF < b.val % 16 * 4096 + s1.val % 64 * 64 + s2.val % 64) := by omega
  have c2 : ¬ b.val % 16 * 4096 + s1.val % 64 * 64 + s2.val % 64 < 0x80 := by omega
  have c3 : ¬ b.val % 16 * 4096 + s1.val % 64 * 64 + s2.val % 64 < 0x800 := by omega
  have c4 : b.val % 16 * 4096 + s1.val % 64 * 64 + s2.val % 64 < 0x10000 := by omega
  simp only [EncodeRune, encodeRune, c1, c2, c3, c4, if_false, if_true]
  rw [ofNat_eq _ b (by omega), ofNat_eq _ s1 (by omega), ofNat_eq _ s2 (by omega)]

theorem encode_four (b s1 s2 s3 : Byte) (lo hi : Nat) (h1 : 0xF0 ≤ b.val) (h2 : b.val ≤ 0xF4)
    (hlo : 0x80 ≤ lo) (hhi : hi ≤ 0xBF) (hf0 : b.val = 0xF0 → 0x90 ≤ lo)
    (hf4 : b.val = 0xF4 → hi ≤ 0x8F)
    (h3 : ¬ (s1.val < lo ∨ hi < s1.val)) (h4 : isCont s2.val = true)
    (h5 : isCont s3.val = true) :
    EncodeRune (b.val % 8 * 262144 + s1.val % 64 * 4096 + s2.val % 64 * 64 + s3.val % 64)
      = [b, s1, s2, s3]
    ∧ 0x10000 ≤ b.val % 8 * 262144 + s1.val % 64 * 4096 + s2.val % 64 * 64 + s3.val % 64 := by
  simp only [isCont, Bool.and_eq_true, decide_eq_true_eq] at h4 h5
  have c1 : ¬ ((0xD800 ≤ b.val % 8 * 262144 + s1.val % 64 * 4096 + s2.val % 64 * 64 + s3.val % 64
      ∧ b.val % 8 * 262144 + s1.val % 64 * 4096 + s2.val % 64 * 64 + s3.val % 64 ≤ 0xDFFF)
      ∨ 0x10FFFF < b.val % 8 * 262144 + s1.val % 64 * 4096 + s2.val % 64 * 64 + s3.val % 64) := by
    omega
  have c2 : ¬ b.val % 8 * 262144 + s1.val % 64 * 4096 + s2.val % 64 * 64 + s3.val % 64 < 0x80 := by
    omega
  have c3 : ¬ b.val % 8 * 262144 + s1.val % 64 * 4096 + s2.val % 64 * 64 + s3.val % 64 < 0x800 := by
    omega
  have c4 : ¬ b.val % 8 * 262144 + s1.val % 64 * 4096 + s2.val % 64 * 64 + s3.val % 64 < 0x10000 := by
    omega
  refine ⟨?_, by omega⟩
  simp only [EncodeRune, encodeRune, c1, c2, c3, c4, if_false, if_true]
  rw [ofNat_eq _ b (by omega), ofNat_eq _ s1 (by omega), ofNat_eq _ s2 (by omega),
    ofNat_eq _ s3 (by omega)]

/-- What a lead byte and the bytes after it decode to: an invalid sequence, or
a rune of two, three or four bytes that encodes back to the same bytes. -/
theorem decodeRune_cases (b : Byte) (rest : GoString) (hb : 0x80 ≤ b.val) :
    decodeRune (b :: rest) = (RuneError, 1)
    ∨ (∃ s1 t r, rest = s1 :: t ∧ (∀ X, decodeRune (b :: s1 :: X) = (r, 2))
        ∧ EncodeRune r = [b, s1] ∧ r < 0x800)
    ∨ (∃ s1 s2 t r, rest = s1 :: s2 :: t ∧ (∀ X, decodeRune (b :: s1 :: s2 :: X) = (r, 3))
        ∧ EncodeRune r = [b, s1, s2])
    ∨ (∃ s1 s2 s3 t r, rest = s1 :: s2 :: s3 :: t
        ∧ (∀ X, decodeRune (b :: s1 :: s2 :: s3 :: X) = (r, 4))
        ∧ EncodeRune r = [b, s1, s2, s3] ∧ 0x10000 ≤ r) := by
  have three : ∀ lo hi, leadInfo b.val = some (3, lo, hi) → 0xE0 ≤ b.val → b.val ≤ 0xEF →
      0x80 ≤ lo → hi ≤ 0xBF → (b.val = 0xE0 → 0xA0 ≤ lo) → (b.val = 0xED → hi ≤ 0x9F) →
      (decodeRune (b :: rest) = (RuneError, 1)
        ∨ (∃ s1 s2 t r, rest = s1 :: s2 :: t
            ∧ (∀ X, decodeRune (b :: s1 :: s2 :: X) = (r, 3)) ∧ EncodeRune r = [b, s1, s2])) := by
    intro lo hi hl h1 h2 hlo hhi he0 hed
    match rest with
    | [] => left; rw [decodeRune_three b _ lo hi hb hl]
    | [s1] => left; rw [decodeRune_three b _ lo hi hb hl]
    | s1 :: s2 :: t =>
      by_cases h3 : s1.val < lo ∨ hi < s1.val
      · left; rw [decodeRune_three b _ lo hi hb hl]; simp only [h3, if_true]
      · by_cases h4 : isCont s2.val = true
        · right
          refine ⟨s1, s2, t, _, rfl, ?_, encode_three b s1 s2 lo hi h1 h2 hlo hhi he0 hed h3 h4⟩
          intro X
          rw [decodeRune_three b _ lo hi hb hl]
          simp only [h3, if_false, h4, Bool.not_true, Bool.false_eq_true]
        · left
          rw [decodeRune_three b _ lo hi hb hl]
          simp only [h3, if_false, h4, Bool.not_false, if_true]
  have four : ∀ lo hi, leadInfo b.val = some (4, lo, hi) → 0xF0 ≤ b.val → b.val ≤ 0xF4 →
      0x80 ≤ lo → hi ≤ 0xBF → (b.val = 0xF0 → 0x90 ≤ lo) → (b.val = 0xF4 → hi ≤ 0x8F) →
      (decodeRune (b :: rest) = (RuneError, 1)
        ∨ (∃ s1 s2 s3 t r, rest = s1 :: s2 :: s3 :: t
            ∧ (∀ X, decodeRune (b :: s1 :: s2 :: s3 :: X) = (r, 4))
            ∧ EncodeRune r = [b, s1, s2, s3] ∧ 0x10000 ≤ r)) := by
    intro lo hi hl h1 h2 hlo hhi hf0 hf4
    match rest with
    | [] => left; rw [decodeRune_four b _ lo hi hb hl]
    | [s1] => left; rw [decodeRune_four b _ lo hi hb hl]
    | [s1, s2] => left; rw [decodeRune_four b _ lo hi hb hl]
    | s1 :: s2 :: s3 :: t =>
      by_cases h3 : s1.val < lo ∨ hi < s1.val
      · left; rw [decodeRune_four b _ lo hi hb hl]; simp only [h3, if_true]
      · by_cases h4 : isCont s2.val = true
        · by_cases h5 : isCont s3.val = true
          · right
            have e := encode_four b s1 s2 s3 lo hi h1 h2 hlo hhi hf0 hf4 h3 h4 h5
            refine ⟨s1, s2, s3, t, _, rfl, ?_, e.1, e.2⟩
            intro X
            rw [decodeRune_four b _ lo hi hb hl]
            simp only [h3, if_false, h4, h5, Bool.not_true, Bool.false_eq_true]
          · left
            rw [decodeRune_four b _ lo hi hb hl]
            simp [h3, h4, h5]
        · left
          rw [decodeRune_four b _ lo hi hb hl]
          simp [h3, h4]
  rcases leadInfo_spec b hb with hl | ⟨hl, h1, h2⟩ | ⟨hl, h1⟩ | ⟨hl, h1, h2, h3⟩ | ⟨hl, h1⟩
      | ⟨hl, h1⟩ | ⟨hl, h1, h2⟩ | ⟨hl, h1⟩
  · exact Or.inl (decodeRune_none b rest hb hl)
  · match rest with
    | [] => left; rw [decodeRune_two b _ _ _ hb hl]
    | s1 :: t =>
      by_cases h3 : s1.val < 0x80 ∨ 0xBF < s1.val
      · left; rw [decodeRune_two b _ _ _ hb hl]; simp only [h3, if_true]
      · right; left
        have e := encode_two b s1 h1 h2 h3
        refine ⟨s1, t, _, rfl, ?_, e.1, e.2⟩
        intro X
        rw [decodeRune_two b _ _ _ hb hl]
        simp only [h3, if_false]
  · rcases three _ _ hl (by omega) (by omega) (by omega) (by omega) (by omega) (by omega) with h | h
    · exact Or.inl h
    · exact Or.inr (Or.inr (Or.inl h))
  · rcases three _ _ hl (by omega) (by omega) (by omega) (by omega) (by omega) (by omega) with h | h
    · exact Or.inl h
    · exact Or.inr (Or.inr (Or.inl h))
  · rcases three _ _ hl (by omega) (by omega) (by omega) (by omega) (by omega) (by omega) with h | h
    · exact Or.inl h
    · exact Or.inr (Or.inr (Or.inl h))
  · rcases four _ _ hl (by omega) (by omega) (by omega) (by omega) (by omega) (by omega) with h | h
    · exact Or.inl h
    · exact Or.inr (Or.inr (Or.inr h))
  · rcases four _ _ hl (by omega) (by omega) (by omega) (by omega) (by omega) (by omega) with h | h
    · exact Or.inl h
    · exact Or.inr (Or.inr (Or.inr h))
  · rcases four _ _ hl (by omega) (by omega) (by omega) (by omega) (by omega) (by omega) with h | h
    · exact Or.inl h
    · exact Or.inr (Or.inr (Or.inr h))

theorem escapeFrom_zero_cons (copy : Bool) (b : Byte) (rest : GoString) :
    escapeFrom 0 copy (b :: rest) =
      if b.val < 0x80 then escapeASCII b ++ escapeFrom 0 true rest
      else if (decodeRune (b :: rest)).1 = RuneError ∧ (decodeRune (b :: rest)).2 = 1 then
        str "\\ufffd" ++ escapeFrom 0 true rest
      else if (decodeRune (b :: rest)).1 = 0x2028 ∨ (decodeRune (b :: rest)).1 = 0x2029 then
        str "\\u202" ++ [hexLower ((decodeRune (b :: rest)).1 % 16)]
          ++ escapeFrom ((decodeRune (b :: rest)).2 - 1) false rest
      else b :: escapeFrom ((decodeRune (b :: rest)).2 - 1) true rest := by
  rfl

theorem escapeFrom_succ_cons (k : Nat) (copy : Bool) (b : Byte) (rest : GoString) :
    escapeFrom (k + 1) copy (b :: rest) =
      if copy then b :: escapeFrom k copy rest else escapeFrom k copy rest := by
  rfl

theorem coerceFrom_zero_cons (b : Byte) (rest : GoString) :
    coerceFrom 0 (b :: rest) =
      if b.val < 0x80 then b :: coerceFrom 0 rest
      else if (decodeRune (b :: rest)).1 = RuneError ∧ (decodeRune (b :: rest)).2 = 1 then
        encodeRune RuneError ++ coerceFrom 0 rest
      else b :: coerceFrom ((decodeRune (b :: rest)).2 - 1) rest := by
  rfl

theorem coerceFrom_succ_cons (k : Nat) (b : Byte) (rest : GoString) :
    coerceFrom (k + 1) (b :: rest) = b :: coerceFrom k rest := by
  rfl

theorem encode_ascii (b : Byte) (hb : b.val < 0x80) : EncodeRune b.val = [b] := by
  have c1 : ¬ ((0xD800 ≤ b.val ∧ b.val ≤ 0xDFFF) ∨ 0x10FFFF < b.val) := by omega
  simp only [EncodeRune, encodeRune, c1, hb, if_false, if_true]
  rw [ofNat_eq _ b rfl]

theorem fuel_succ (P X : GoString) (fuel : Nat) (h : (P ++ X).length ≤ fuel) (hP : 0 < P.length) :
    ∃ f, fuel = f + 1 ∧ X.length ≤ f := by
  rw [List.length_append] at h
  exact ⟨fuel - 1, by omega, by omega⟩

/-- Reading back what `appendString` wrote between the quotes gives the string
with its invalid bytes replaced by U+FFFD, whenever the fuel covers the text. -/
theorem unquoteBody_escapeFrom (n : Nat) :
    ∀ (s : GoString) (fuel : Nat), s.length ≤ n → (escapeFrom 0 true s).length ≤ fuel →
      unquoteBody fuel (escapeFrom 0 true s) = some (coerceFrom 0 s) := by
  induction n with
  | zero =>
    intro s fuel hs _
    have : s = [] := List.length_eq_zero.mp (Nat.le_zero.mp hs)
    subst this
    cases fuel <;> rfl
  | succ n ih =>
    intro s fuel hs hfuel
    match s, hs, hfuel with
    | [], _, _ => cases fuel <;> rfl
    | b :: rest, hs, hfuel =>
      have hrest : rest.length ≤ n := by simpa using hs
      by_cases hb : b.val < 0x80
      · -- one ASCII byte
        rw [escapeFrom_zero_cons] at hfuel ⊢
        rw [coerceFrom_zero_cons]
        simp only [hb, if_true] at hfuel ⊢
        have hstep : ∀ (P : GoString), escapeASCII b = P → 0 < P.length →
            (∀ f X, unquoteBody (f + 1) (P ++ X) = (unquoteBody f X).map fun t => b :: t) →
            unquoteBody fuel (escapeASCII b ++ escapeFrom 0 true rest)
              = some (b :: coerceFrom 0 rest) := by
          intro P hP hlen hdec
          rw [hP] at hfuel ⊢
          obtain ⟨f, rfl, hf⟩ := fuel_succ P _ fuel hfuel hlen
          rw [hdec, ih rest f hrest hf]
          rfl
        rcases escapeASCII_spec b hb with ⟨hE, h1, h2, h3⟩ | ⟨hE, h1⟩ | ⟨hE, h1⟩ | ⟨hE, h1⟩
            | ⟨hE, h1⟩ | ⟨hE, h1⟩ | ⟨hE, h1⟩ | ⟨hE, h1⟩
        · exact hstep _ hE (by simp) fun f X => step_plain f b X h1 h2 h3 hb
        · exact hstep _ hE (by simp) fun f X => step_quoted f b X h1
        · subst h1; exact hstep _ hE (by simp) fun f X => (step_short f X).1
        · subst h1; exact hstep _ hE (by simp) fun f X => (step_short f X).2.1
        · subst h1; exact hstep _ hE (by simp) fun f X => (step_short f X).2.2.1
        · subst h1; exact hstep _ hE (by simp) fun f X => (step_short f X).2.2.2.1
        · subst h1; exact hstep _ hE (by simp) fun f X => (step_short f X).2.2.2.2
        · refine hstep _ hE (by simp) fun f X => ?_
          have := step_u4 f 0x30 0x30 (hexLower (b.val / 16)) (hexLower (b.val % 16)) X b.val h1
            (by omega)
          rw [encode_ascii b hb] at this
          exact this
      · -- a byte that starts, or fails to start, a multi-byte rune
        have hb1 : 0x80 ≤ b.val := by omega
        rw [escapeFrom_zero_cons] at hfuel ⊢
        rw [coerceFrom_zero_cons]
        simp only [hb, if_false] at hfuel ⊢
        rcases decodeRune_cases b rest hb1 with hd | ⟨s1, t, r, rfl, hd, he, hr⟩
            | ⟨s1, s2, t, r, rfl, hd, he⟩ | ⟨s1, s2, s3, t, r, rfl, hd, he, hr⟩
        · -- invalid byte, written as an escaped U+FFFD
          have hP : str "\\ufffd" = [0x5C, 0x75, 0x66, 0x66, 0x66, 0x64] := by decide
          simp only [hd, and_self, if_true, hP] at hfuel ⊢
          obtain ⟨f, rfl, hf⟩ := fuel_succ _ _ fuel hfuel (by simp)
          have := step_u4 f 0x66 0x66 0x66 0x64 (escapeFrom 0 true rest) 0xFFFD (by decide)
            (by decide)
          simp only [List.cons_append, List.nil_append] at this ⊢
          rw [this, ih rest f hrest hf]
          rfl
        · -- two bytes
          have hn1 : ¬ (r = RuneError ∧ 2 = 1) := by simp
          have hn2 : ¬ (r = 0x2028 ∨ r = 0x2029) := by omega
          have ht : t.length ≤ n := by simp at hrest; omega
          simp only [hd, hn1, hn2, if_false, Nat.add_one_sub_one, escapeFrom_succ_cons, if_true,
            coerceFrom_succ_cons] at hfuel ⊢
          obtain ⟨f, rfl, hf⟩ := fuel_succ [b, s1] _ fuel hfuel (by simp)
          rw [step_multi f b _ hb1, hd]
          simp only [Nat.add_one_sub_one, List.drop_succ_cons, List.drop_zero, he]
          rw [ih t f ht hf]
          rfl
        · -- three bytes
          have hn1 : ¬ (r = RuneError ∧ 3 = 1) := by simp
          have ht : t.length ≤ n := by simp at hrest; omega
          by_cases hls : r = 0x2028 ∨ r = 0x2029
          · simp only [hd, hn1, hls, if_false, if_true, Nat.add_one_sub_one, escapeFrom_succ_cons,
              Bool.false_eq_true, escapeFrom_zero_copy, coerceFrom_succ_cons] at hfuel ⊢
            have hP : str "\\u202" ++ [hexLower (r % 16)]
                = [0x5C, 0x75, 0x32, 0x30, 0x32, hexLower (r % 16)] := by
              have : str "\\u202" = [0x5C, 0x75, 0x32, 0x30, 0x32] := by decide
              rw [this]; rfl
            rw [hP] at hfuel ⊢
            obtain ⟨f, rfl, hf⟩ := fuel_succ _ _ fuel hfuel (by simp)
            have hg : getu4 [0x5C, 0x75, 0x32, 0x30, 0x32, hexLower (r % 16)] = some r := by
              rcases hls with h | h <;> subst h <;> decide
            have := step_u4 f 0x32 0x30 0x32 (hexLower (r % 16)) (escapeFrom 0 true t) r hg
              (by omega)
            simp only [List.cons_append, List.nil_append] at this ⊢
            rw [this, ih t f ht hf, he]
            rfl
          · simp only [hd, hn1, hls, if_false, Nat.add_one_sub_one, escapeFrom_succ_cons, if_true,
              coerceFrom_succ_cons] at hfuel ⊢
            obtain ⟨f, rfl, hf⟩ := fuel_succ [b, s1, s2] _ fuel hfuel (by simp)
            rw [step_multi f b _ hb1, hd]
            simp only [Nat.add_one_sub_one, List.drop_succ_cons, List.drop_zero, he]
            rw [ih t f ht hf]
            rfl
        · -- four bytes
          have hn1 : ¬ (r = RuneError ∧ 4 = 1) := by simp
          have hn2 : ¬ (r = 0x2028 ∨ r = 0x2029) := by omega
          have ht : t.length ≤ n := by simp at hrest; omega
          simp only [hd, hn1, hn2, if_false, Nat.add_one_sub_one, escapeFrom_succ_cons, if_true,
            coerceFrom_succ_cons] at hfuel ⊢
          obtain ⟨f, rfl, hf⟩ := fuel_succ [b, s1, s2, s3] _ fuel hfuel (by simp)
          rw [step_multi f b _ hb1, hd]
          simp only [Nat.add_one_sub_one, List.drop_succ_cons, List.drop_zero, he]
          rw [ih t f ht hf]
          rfl

/-- Decoding the literal `encoding/json` writes for a string gives the string
with each invalid byte replaced by U+FFFD. -/
theorem unquote_quote (s : GoString) : unquote (quote s) = some (coerceUTF8 s) := by
  have h : quote s = 0x22 :: (escapeFrom 0 true s ++ [0x22]) := by
    simp [quote]
  rw [h]
  simp only [unquote]
  have h0 : ((0x22 : Byte).val = 0x22) := by decide
  have h1 : (escapeFrom 0 true s ++ [0x22]).getLast? = some 0x22 := by simp
  have h2 : (escapeFrom 0 true s ++ [0x22]).dropLast = escapeFrom 0 true s := by simp
  simp only [h0, h1, h2, and_self, if_true]
  exact unquoteBody_escapeFrom s.length s _ (Nat.le_refl _) (by simp)

theorem coerceFrom_of_valid (s : GoString) :
    ∀ k, validFrom k s = true → coerceFrom k s = s := by
  induction s with
  | nil => intro k _; cases k <;> rfl
  | cons b rest ih =>
    intro k hv
    cases k with
    | succ k =>
      rw [coerceFrom_succ_cons]
      have : validFrom k rest = true := hv
      rw [ih k this]
    | zero =>
      rw [coerceFrom_zero_cons]
      have hv2 : (if b.val < 0x80 then validFrom 0 rest
          else if (decodeRune (b :: rest)).1 = RuneError ∧ (decodeRune (b :: rest)).2 = 1 then false
          else validFrom ((decodeRune (b :: rest)).2 - 1) rest) = true := hv
      by_cases hb : b.val < 0x80
      · simp only [hb, if_true] at hv2 ⊢
        rw [ih 0 hv2]
      · by_cases hd : (decodeRune (b :: rest)).1 = RuneError ∧ (decodeRune (b :: rest)).2 = 1
        · simp [hb, hd] at hv2
        · simp only [hb, hd, if_false] at hv2 ⊢
          rw [ih _ hv2]

/-- A string that is valid UTF-8 is read back unchanged. -/
theorem unquote_quote_of_valid (s : GoString) (h : ValidString s = true) :
    unquote (quote s) = some s := by
  rw [unquote_quote, coerceUTF8, coerceFrom_of_valid s 0 h]

/-! ## The document of an event request -/

theorem eventsToJson_ok (lib : Stdlib) (es : List Event)
    (h : ∀ e ∈ es, ∃ j, e.toJson lib = .ok j) :
    ∃ js, eventsToJson lib es = .ok js ∧ es.map (Event.toJson lib) = js.map Except.ok := by
  induction es with
  | nil => exact ⟨[], rfl, rfl⟩
  | cons e es ih =>
    obtain ⟨j, hj⟩ := h e (List.mem_cons_self e es)
    obtain ⟨js, hjs, hmap⟩ := ih fun e1 he1 => h e1 (List.mem_cons_of_mem e he1)
    refine ⟨j :: js, ?_, ?_⟩
    · simp only [eventsToJson, hj, hjs]
    · simp only [List.map_cons, hj, hmap]

theorem map_ok_length (lib : Stdlib) (es : List Event) (js : List Json)
    (h : es.map (Event.toJson lib) = js.map Except.ok) : js.length = es.length := by
  have := congrArg List.length h
  simpa using this.symm

theorem map_ok_index (lib : Stdlib) (es : List Event) (js : List Json)
    (h : es.map (Event.toJson lib) = js.map Except.ok) (i : Nat) (hi : i < es.length) :
    ∃ j, js[i]? = some j ∧ es[i].toJson lib = .ok j ∧ es[i].jsonMarshal lib = .ok j.render := by
  have hlen := map_ok_length lib es js h
  have hj : i < js.length := by omega
  have hget := congrArg (fun l => l[i]?) h
  simp only [List.getElem?_map, List.getElem?_eq_getElem hi, List.getElem?_eq_getElem hj,
    Option.map_some', Option.some.injEq] at hget
  refine ⟨js[i], List.getElem?_eq_getElem hj, hget, ?_⟩
  simp only [Event.jsonMarshal, hget]
  rfl

theorem renderElems_eq (js : List Json) :
    Json.renderElems js = List.intercalate [0x2C] (js.map Json.render) := by
  induction js with
  | nil => rfl
  | cons x xs ih =>
    cases xs with
    | nil => simp [Json.renderElems, List.intercalate]
    | cons y ys =>
      rw [Json.renderElems, ih]
      simp [List.intercalate]

theorem request_toJson_ok (lib : Stdlib) (key : GoString) (es : List Event)
    (h : ∀ e ∈ es, ∃ j, e.toJson lib = .ok j) :
    ∃ js, EventRequest.toJson lib { ApiKey := key, Events := es }
        = .ok (.object (requestMembers key js))
      ∧ es.map (Event.toJson lib) = js.map Except.ok := by
  obtain ⟨js, hjs, hmap⟩ := eventsToJson_ok lib es h
  have hlen := map_ok_length lib es js hmap
  refine ⟨js, ?_, hmap⟩
  unfold EventRequest.toJson requestMembers
  by_cases he : es.length = 0
  · have hjs0 : js.length = 0 := by omega
    simp [he, hjs0]
  · have hjs0 : ¬ js.length = 0 := by omega
    simp only [he, hjs0, if_false, hjs]

theorem events_sent_of_serializable (lib : Stdlib) (c : Client) (es : List Event)
    (h : ∀ e ∈ es, ∃ j, e.toJson lib = .ok j) :
    ∃ js, (c.Events lib es).sent
        = [eventsRequest lib (Json.render (.object (requestMembers c.key js)))]
      ∧ es.map (Event.toJson lib) = js.map Except.ok := by
  obtain ⟨js, hjs, hmap⟩ := request_toJson_ok lib c.key es h
  refine ⟨js, ?_, hmap⟩
  apply Events_sent_of_ok
  simp only [EventRequest.jsonMarshal, hjs]
  rfl

theorem member_events (key : GoString) (js : List Json) (h : ¬ js.length = 0) :
    Json.member (str "events") (.object (requestMembers key js)) = some (.array js) := by
  have hne : (str "api_key" = str "events") = False := by decide
  by_cases hk : key.length = 0 <;> simp [requestMembers, Json.member, hk, h, hne]

/-! ## Claims about the event request body -/

/-- C1: for a batch of N events that all serialize and every index i < N,
`Events` sends one request whose body gunzips to the text of a JSON object
whose `events` member is an array of N elements; the elements are the
documents `json.Marshal` gives for the input events, in input order, so that
element i is the serialization of input event i, and the text of the array is
the comma-separated texts of the elements between brackets. -/
theorem events_order_preserved (lib : Stdlib) (c : Client) (events : List Event)
    (hser : ∀ e ∈ events, ∃ j, e.toJson lib = .ok j) (i : Nat) (hi : i < events.length) :
    ∃ (r : Request) (js : List Json),
      (c.Events lib events).sent = [r]
      ∧ lib.gunzip r.Body = some (Json.render (.object (requestMembers c.key js)))
      ∧ Json.member (str "events") (.object (requestMembers c.key js)) = some (.array js)
      ∧ events.map (Event.toJson lib) = js.map Except.ok
      ∧ js.length = events.length
      ∧ (∃ j, js[i]? = some j ∧ events[i].toJson lib = .ok j
            ∧ events[i].jsonMarshal lib = .ok j.render)
      ∧ Json.render (.array js)
          = [0x5B] ++ List.intercalate [0x2C] (js.map Json.render) ++ [0x5D] := by
  obtain ⟨js, hsent, hmap⟩ := events_sent_of_serializable lib c events hser
  have hlen := map_ok_length lib events js hmap
  refine ⟨_, js, hsent, lib.gunzip_gzip _, member_events c.key js (by omega), hmap, hlen,
    map_ok_index lib events js hmap i hi, ?_⟩
  rw [Json.render, renderElems_eq]

/-- Witness of C1: a batch of two events, index 1. -/
theorem events_order_preserved_witness :
    ∃ (r : Request) (js : List Json),
      (Client.Events Stdlib.sample (New (fun _ => .error (.other 1)) (str "k1"))
        [{ EventType := str "login" }, { EventType := str "logout", Quantity := 2 }]).sent = [r]
      ∧ Stdlib.sample.gunzip r.Body = some (Json.render (.object (requestMembers (str "k1") js)))
      ∧ Json.member (str "events") (.object (requestMembers (str "k1") js)) = some (.array js)
      ∧ js = [.object [(str "event_type", .string (str "login"))],
              .object [(str "event_type", .string (str "logout")),
                       (str "quantity", .number (str "2"))]] := by
  obtain ⟨r, js, h1, h2, h3, h4, -⟩ := events_order_preserved Stdlib.sample
    (New (fun _ => .error (.other 1)) (str "k1"))
    [{ EventType := str "login" }, { EventType := str "logout", Quantity := 2 }]
    (by
      intro e he
      simp only [List.mem_cons, List.mem_singleton, List.not_mem_nil, or_false] at he
      rcases he with rfl | rfl <;> exact ⟨_, rfl⟩)
    1 (by decide)
  refine ⟨r, js, h1, h2, h3, ?_⟩
  have e : List.map (Event.toJson Stdlib.sample)
      [{ EventType := str "login" }, { EventType := str "logout", Quantity := 2 }]
      = List.map Except.ok [.object [(str "event_type", .string (str "login"))],
              .object [(str "event_type", .string (str "logout")),
                       (str "quantity", .number (str "2"))]] := by
    rfl
  rw [e] at h4
  exact (List.map_injective_iff.mpr (fun a b hab => Except.ok.inj hab) h4).symm

/-- C10, as stated, fails: with the empty key and no events the body is `{}`,
with key "k1" and no events it has no `events` member, and with the empty key
and one event it has no `api_key` member. -/
theorem request_members_omitted :
    (Client.Events Stdlib.sample (New (fun _ => .error (.other 1)) []) []).sent.map
        (fun r => Stdlib.sample.gunzip r.Body) = [some (str "\x7b\x7d")]
    ∧ (Client.Events Stdlib.sample (New (fun _ => .error (.other 1)) (str "k1")) []).sent.map
        (fun r => Stdlib.sample.gunzip r.Body) = [some (str "\x7b\"api_key\":\"k1\"\x7d")]
    ∧ (Client.Events Stdlib.sample (New (fun _ => .error (.other 1)) [])
        [{ EventType := str "login" }]).sent.map
        (fun r => Stdlib.sample.gunzip r.Body)
        = [some (str "\x7b\"events\":[\x7b\"event_type\":\"login\"\x7d]\x7d")] := by
  refine ⟨?_, ?_, ?_⟩ <;> rfl

theorem render_requestMembers (key : GoString) (js : List Json) :
    Json.render (.object (requestMembers key js))
      = [0x7B]
        ++ (if key.length = 0 then [] else str "\"api_key\":" ++ quote key)
        ++ (if key.length = 0 ∨ js.length = 0 then [] else [0x2C])
        ++ (if js.length = 0 then []
            else str "\"events\":[" ++ List.intercalate [0x2C] (js.map Json.render) ++ [0x5D])
        ++ [0x7D] := by
  have hk : quote (str "api_key") ++ [0x3A] = str "\"api_key\":" := by decide
  have he : quote (str "events") ++ [0x3A] ++ [0x5B] = str "\"events\":[" := by decide
  have m1 : ∀ (k : GoString) (x : Json),
      Json.renderMembers [(k, x)] = quote k ++ [0x3A] ++ x.render := fun _ _ => rfl
  have m2 : ∀ (k1 k2 : GoString) (x y : Json),
      Json.renderMembers [(k1, x), (k2, y)]
        = quote k1 ++ [0x3A] ++ x.render ++ [0x2C] ++ Json.renderMembers [(k2, y)] :=
    fun _ _ _ _ => rfl
  have ra : ∀ xs : List Json, Json.render (.array xs)
      = [0x5B] ++ List.intercalate [0x2C] (xs.map Json.render) ++ [0x5D] := by
    intro xs; rw [Json.render, renderElems_eq]
  have rs : ∀ s : GoString, Json.render (.string s) = quote s := fun _ => rfl
  have ro : ∀ ms : List (GoString × Json), Json.render (.object ms)
      = [0x7B] ++ Json.renderMembers ms ++ [0x7D] := fun _ => rfl
  have rn : Json.renderMembers [] = [] := rfl
  rw [ro]
  unfold requestMembers
  by_cases h1 : key.length = 0 <;> by_cases h2 : js.length = 0
  · simp only [h1, h2, if_true, true_or, List.append_nil, rn]
  · simp only [h1, h2, if_true, if_false, true_or, List.nil_append, List.append_nil, m1, ra, ← he,
      List.append_assoc]
  · simp only [h1, h2, if_true, if_false, or_true, List.append_nil, m1, rs, ← hk,
      List.append_assoc]
  · simp only [h1, h2, if_false, or_self, List.singleton_append, m2, m1, ra, rs, ← hk, ← he,
      List.append_assoc, List.cons_append, List.nil_append]

/-- C10, amended: for every key and every event sequence whose events all
serialize, `Events` sends one request whose body gunzips to the text of a JSON
object: an opening brace; exactly when the key is non-empty, the member
`"api_key":` followed by the string literal `encoding/json` writes for the
key; exactly when the sequence is non-empty, the member `"events":` followed by
an array with exactly one element per input event, the events' documents in
input order; a closing brace.  Read back, the string literal is the client's
key with each byte that is not part of a valid UTF-8 sequence replaced by
U+FFFD, so the `api_key` member equals the key whenever the key is valid
UTF-8. -/
theorem request_body_shape (lib : Stdlib) (c : Client) (events : List Event)
    (hser : ∀ e ∈ events, ∃ j, e.toJson lib = .ok j) :
    ∃ (r : Request) (js : List Json),
      (c.Events lib events).sent = [r]
      ∧ lib.gunzip r.Body = some
          ([0x7B]
            ++ (if c.key.length = 0 then [] else str "\"api_key\":" ++ quote c.key)
            ++ (if c.key.length = 0 ∨ events.length = 0 then [] else [0x2C])
            ++ (if events.length = 0 then []
                else str "\"events\":[" ++ List.intercalate [0x2C] (js.map Json.render)
                  ++ [0x5D])
            ++ [0x7D])
      ∧ events.map (Event.toJson lib) = js.map Except.ok
      ∧ js.length = events.length
      ∧ unquote (quote c.key) = some (coerceUTF8 c.key)
      ∧ (ValidString c.key = true → unquote (quote c.key) = some c.key) := by
  obtain ⟨js, hsent, hmap⟩ := events_sent_of_serializable lib c events hser
  have hlen := map_ok_length lib events js hmap
  refine ⟨_, js, hsent, ?_, hmap, hlen, unquote_quote c.key, unquote_quote_of_valid c.key⟩
  rw [← hlen, ← render_requestMembers]
  exact lib.gunzip_gzip _

/-- Witness of C10 amended: key "k1" and a batch of two events. -/
theorem request_body_shape_witness :
    ∃ r : Request,
      (Client.Events Stdlib.sample (New (fun _ => .error (.other 1)) (str "k1"))
        [{ EventType := str "login" }, { EventType := str "logout" }]).sent = [r]
      ∧ Stdlib.sample.gunzip r.Body = some (str
          "\x7b\"api_key\":\"k1\",\"events\":[\x7b\"event_type\":\"login\"\x7d,\x7b\"event_type\":\"logout\"\x7d]\x7d")
      ∧ unquote (quote (str "k1")) = some (str "k1") := by
  obtain ⟨r, js, h1, h2, h3, -, -, h4⟩ := request_body_shape Stdlib.sample
    (New (fun _ => .error (.other 1)) (str "k1"))
    [{ EventType := str "login" }, { EventType := str "logout" }]
    (by
      intro e he
      simp only [List.mem_cons, List.mem_singleton, List.not_mem_nil, or_false] at he
      rcases he with rfl | rfl <;> exact ⟨_, rfl⟩)
  have e : List.map (Event.toJson Stdlib.sample)
      [{ EventType := str "login" }, { EventType := str "logout" }]
      = List.map Except.ok [.object [(str "event_type", .string (str "login"))],
              .object [(str "event_type", .string (str "logout"))]] := by
    rfl
  rw [e] at h3
  have hjs := (List.map_injective_iff.mpr (fun a b hab => Except.ok.inj hab) h3).symm
  subst hjs
  refine ⟨r, h1, ?_, h4 (by decide)⟩
  rw [h2]
  rfl

/-- A key that is not valid UTF-8 is not recoverable from the body: the keys
`k\xff` and `k\xfe` are both written as `k` followed by an escaped U+FFFD. -/
theorem invalid_key_byte_replaced :
    (Client.Events Stdlib.sample (New (fun _ => .error (.other 1)) [0x6B, 0xFF]) []).sent.map
        (fun r => Stdlib.sample.gunzip r.Body) = [some (str "\x7b\"api_key\":\"k\\ufffd\"\x7d")]
    ∧ (Client.Events Stdlib.sample (New (fun _ => .error (.other 1)) [0x6B, 0xFE]) []).sent.map
        (fun r => Stdlib.sample.gunzip r.Body) = [some (str "\x7b\"api_key\":\"k\\ufffd\"\x7d")]
    ∧ unquote (quote [0x6B, 0xFF]) = some (str "k\uFFFD") := by
  refine ⟨?_, ?_, ?_⟩ <;> rfl

/-! ## Omitted fields -/

theorem marshalFields_keys (lib : Stdlib) (fs : List (GoString × FieldValue)) :
    ∀ ms, marshalFields lib fs = .ok ms →
      ∀ k ∈ ms.map Prod.fst, ∃ v, (k, v) ∈ fs ∧ v.isEmpty = false := by
  induction fs with
  | nil =>
    intro ms h k hk
    simp only [marshalFields, Except.ok.injEq] at h
    subst h
    simp at hk
  | cons f fs ih =>
    obtain ⟨name, v⟩ := f
    intro ms h k hk
    unfold marshalFields at h
    by_cases hv : v.isEmpty = true
    · simp only [hv, if_true] at h
      obtain ⟨v1, hmem, hne⟩ := ih ms h k hk
      exact ⟨v1, List.mem_cons_of_mem _ hmem, hne⟩
    · simp only [hv] at h
      cases hj : v.marshal lib with
      | error e => simp [hj] at h
      | ok j =>
        cases hrest : marshalFields lib fs with
        | error e => simp [hj, hrest] at h
        | ok ms1 =>
          simp only [hj, hrest, Bool.false_eq_true, if_false, Except.ok.injEq] at h
          subst h
          simp only [List.map_cons, List.mem_cons] at hk
          rcases hk with rfl | hk
          · exact ⟨v, List.mem_cons_self _ _, by simpa using hv⟩
          · obtain ⟨v1, hmem, hne⟩ := ih ms1 hrest k hk
            exact ⟨v1, List.mem_cons_of_mem _ hmem, hne⟩

theorem value_unique_of_nodup {α : Type} (l : List (GoString × α)) (h : (l.map Prod.fst).Nodup)
    (k : GoString) (v w : α) (hv : (k, v) ∈ l) (hw : (k, w) ∈ l) : v = w := by
  induction l with
  | nil => simp at hv
  | cons x l ih =>
    simp only [List.map_cons, List.nodup_cons] at h
    simp only [List.mem_cons] at hv hw
    rcases hv with rfl | hv
    · rcases hw with hw | hw
      · exact (Prod.mk.inj hw).2.symm
      · exact absurd (List.mem_map_of_mem Prod.fst hw) h.1
    · rcases hw with rfl | hw
      · exact absurd (List.mem_map_of_mem Prod.fst hv) h.1
      · exact ih h.2 hv hw

theorem member_none_of_not_key (ms : List (GoString × Json)) (k : GoString)
    (h : k ∉ ms.map Prod.fst) : Json.member k (.object ms) = none := by
  simp only [Json.member, Option.map_eq_none', List.find?_eq_none, decide_eq_true_eq]
  intro m hm hk
  exact h (hk ▸ List.mem_map_of_mem Prod.fst hm)

theorem unset_not_key (lib : Stdlib) (fs : List (GoString × FieldValue))
    (hnd : (fs.map Prod.fst).Nodup) (ms : List (GoString × Json))
    (h : marshalFields lib fs = .ok ms) (name : GoString) (v : FieldValue)
    (hmem : (name, v) ∈ fs) (hv : v.isEmpty = true) :
    name ∉ Json.keys (.object ms) ∧ Json.member name (.object ms) = none := by
  have hk : name ∉ ms.map Prod.fst := by
    intro hin
    obtain ⟨w, hw, hne⟩ := marshalFields_keys lib fs ms h name hin
    have := value_unique_of_nodup fs hnd name v w hmem hw
    subst this
    rw [hv] at hne
    cases hne
  exact ⟨hk, member_none_of_not_key ms name hk⟩

theorem Event_fields_nodup (e : Event) : (e.fields.map Prod.fst).Nodup := by
  simp only [Event.fields, List.map_cons, List.map_nil]
  decide

theorem Identify_fields_nodup (m : Identify) : (m.fields.map Prod.fst).Nodup := by
  simp only [Identify.fields, List.map_cons, List.map_nil]
  decide

theorem unset_isEmpty (v : FieldValue)
    (h : v = .str [] ∨ v = .int 0 ∨ v = .float 0 ∨ v = .map []) : v.isEmpty = true := by
  rcases h with rfl | rfl | rfl | rfl <;> rfl

/-- C2: in the JSON object of any `Event` and of any `Identify`, a field left
unset (empty string, integer 0, float 0, nil or empty map) has no key at all,
so no null or placeholder value either; the default-constructed `Event` and
`Identify` both serialize to exactly the text of the empty object. -/
theorem unset_fields_omitted (lib : Stdlib) :
    (∀ (e : Event) (doc : Json) (name : GoString) (v : FieldValue),
        e.toJson lib = .ok doc → (name, v) ∈ e.fields →
        (v = .str [] ∨ v = .int 0 ∨ v = .float 0 ∨ v = .map []) →
        name ∉ doc.keys ∧ doc.member name = none)
    ∧ (∀ (m : Identify) (doc : Json) (name : GoString) (v : FieldValue),
        m.toJson lib = .ok doc → (name, v) ∈ m.fields →
        (v = .str [] ∨ v = .int 0 ∨ v = .float 0 ∨ v = .map []) →
        name ∉ doc.keys ∧ doc.member name = none)
    ∧ Event.jsonMarshal lib {} = .ok (str "\x7b\x7d")
    ∧ Identify.jsonMarshal lib {} = .ok (str "\x7b\x7d") := by
  refine ⟨?_, ?_, rfl, rfl⟩
  · intro e doc name v hdoc hmem hv
    unfold Event.toJson at hdoc
    cases hms : marshalFields lib e.fields with
    | error err => simp [hms] at hdoc
    | ok ms =>
      simp only [hms, Except.ok.injEq] at hdoc
      subst hdoc
      exact unset_not_key lib e.fields (Event_fields_nodup e) ms hms name v hmem (unset_isEmpty v hv)
  · intro m doc name v hdoc hmem hv
    unfold Identify.toJson at hdoc
    cases hms : marshalFields lib m.fields with
    | error err => simp [hms] at hdoc
    | ok ms =>
      simp only [hms, Except.ok.injEq] at hdoc
      subst hdoc
      exact unset_not_key lib m.fields (Identify_fields_nodup m) ms hms name v hmem
        (unset_isEmpty v hv)

/-- Witness of C2: an event with only `event_type` set has no `user_id` key, and
an identify record with only `user_id` set has no `groups` key. -/
theorem unset_fields_omitted_witness :
    (str "user_id" ∉ Json.keys (.object [(str "event_type", .string (str "login"))])
      ∧ Json.member (str "user_id") (.object [(str "event_type", .string (str "login"))]) = none)
    ∧ (str "groups" ∉ Json.keys (.object [(str "user_id", .string (str "u1"))])
      ∧ Json.member (str "groups") (.object [(str "user_id", .string (str "u1"))]) = none) :=
  ⟨(unset_fields_omitted Stdlib.sample).1 { EventType := str "login" }
      (.object [(str "event_type", .string (str "login"))]) (str "user_id") (.str [])
      rfl (by simp [Event.fields]) (Or.inl rfl),
   (unset_fields_omitted Stdlib.sample).2.1 { UserId := str "u1" }
      (.object [(str "user_id", .string (str "u1"))]) (str "groups") (.map [])
      rfl (by simp [Identify.fields]) (Or.inr (Or.inr (Or.inr rfl)))⟩


/-! ## Form encoding read back -/

theorem QueryUnescape_plain (c : Byte) (rest : GoString) (h1 : c.val ≠ 0x25) (h2 : c.val ≠ 0x2B) :
    QueryUnescape (c :: rest) = (QueryUnescape rest).map fun t => c :: t := by
  conv_lhs => unfold QueryUnescape
  simp only [h1, h2, if_false]

theorem QueryUnescape_plus (rest : GoString) :
    QueryUnescape (0x2B :: rest) = (QueryUnescape rest).map fun t => 0x20 :: t := by
  conv_lhs => unfold QueryUnescape
  rfl

theorem QueryUnescape_percent (h l : Byte) (rest : GoString) (hh : ishex h = true)
    (hl : ishex l = true) :
    QueryUnescape (0x25 :: h :: l :: rest)
      = (QueryUnescape rest).map fun t => Fin.ofNat (unhex h * 16 + unhex l) :: t := by
  conv_lhs => unfold QueryUnescape
  have : ((0x25 : Byte).val = 0x25) = True := by decide
  simp only [this, if_true, hh, hl, Bool.and_self]

theorem escapeByte_spec (c : Byte) :
    (shouldEscape c = false ∧ escapeByte c = [c] ∧ c.val ≠ 0x25 ∧ c.val ≠ 0x2B ∧ c.val ≠ 0x26
        ∧ c.val ≠ 0x3D ∧ c.val ≠ 0x3B)
    ∨ (c = 0x20 ∧ escapeByte c = [0x2B])
    ∨ (escapeByte c = [0x25, upperhex (c.val / 16), upperhex (c.val % 16)]
        ∧ ishex (upperhex (c.val / 16)) = true ∧ ishex (upperhex (c.val % 16)) = true
        ∧ (Fin.ofNat (unhex (upperhex (c.val / 16)) * 16 + unhex (upperhex (c.val % 16))) : Byte)
            = c) := by
  revert c
  decide

theorem upperhex_not_sep (n : Nat) (hn : n < 16) :
    (upperhex n).val ≠ 0x26 ∧ (upperhex n).val ≠ 0x3D ∧ (upperhex n).val ≠ 0x3B := by
  have h : ∀ k : Fin 16, (upperhex k.val).val ≠ 0x26 ∧ (upperhex k.val).val ≠ 0x3D
      ∧ (upperhex k.val).val ≠ 0x3B := by decide
  exact h ⟨n, hn⟩

theorem QueryUnescape_append (c : Byte) (rest : GoString) :
    QueryUnescape (escapeByte c ++ rest) = (QueryUnescape rest).map fun t => c :: t := by
  rcases escapeByte_spec c with ⟨-, h, h1, h2, -⟩ | ⟨h0, h⟩ | ⟨h, hh, hl, hv⟩
  · rw [h]
    exact QueryUnescape_plain c rest h1 h2
  · rw [h, h0]
    exact QueryUnescape_plus rest
  · rw [h]
    have := QueryUnescape_percent _ _ rest hh hl
    rw [hv] at this
    exact this

theorem QueryUnescape_QueryEscape (s : GoString) : QueryUnescape (QueryEscape s) = some s := by
  induction s with
  | nil => rfl
  | cons c s ih =>
    have : QueryEscape (c :: s) = escapeByte c ++ QueryEscape s := by
      simp [QueryEscape]
    rw [this, QueryUnescape_append, ih]
    rfl

theorem escapeByte_bytes (b c : Byte) (hc : c ∈ escapeByte b) :
    c.val ≠ 0x26 ∧ c.val ≠ 0x3D ∧ c.val ≠ 0x3B := by
  rcases escapeByte_spec b with ⟨-, h, -, -, h3, h4, h5⟩ | ⟨-, h⟩ | ⟨h, -⟩
  · rw [h, List.mem_singleton] at hc
    subst hc
    exact ⟨h3, h4, h5⟩
  · rw [h, List.mem_singleton] at hc
    subst hc
    decide
  · rw [h] at hc
    simp only [List.mem_cons, List.mem_singleton, List.not_mem_nil, or_false] at hc
    rcases hc with rfl | rfl | rfl
    · decide
    · exact upperhex_not_sep _ (Nat.div_lt_of_lt_mul b.isLt)
    · exact upperhex_not_sep _ (Nat.mod_lt _ (by decide))

theorem QueryEscape_bytes (s : GoString) (c : Byte) (hc : c ∈ QueryEscape s) :
    c.val ≠ 0x26 ∧ c.val ≠ 0x3D ∧ c.val ≠ 0x3B := by
  simp only [QueryEscape, List.mem_flatMap] at hc
  obtain ⟨b, -, hb⟩ := hc
  exact escapeByte_bytes b c hb

theorem splitOnByte_ne_nil (sep : Byte) (s : GoString) : splitOnByte sep s ≠ [] := by
  cases s with
  | nil => simp [splitOnByte]
  | cons c rest =>
    unfold splitOnByte
    split
    · simp
    · split <;> simp

theorem splitOnByte_no_sep (sep : Byte) (s : GoString) (h : ∀ c ∈ s, c ≠ sep) :
    splitOnByte sep s = [s] := by
  induction s with
  | nil => rfl
  | cons c rest ih =>
    have hc : c ≠ sep := h c (List.mem_cons_self _ _)
    have hr := ih fun x hx => h x (List.mem_cons_of_mem _ hx)
    unfold splitOnByte
    simp only [hc, if_false, hr]

theorem splitOnByte_append (sep : Byte) (s t : GoString) (h : ∀ c ∈ s, c ≠ sep) :
    splitOnByte sep (s ++ sep :: t) = s :: splitOnByte sep t := by
  induction s with
  | nil =>
    show splitOnByte sep (sep :: t) = _
    conv_lhs => unfold splitOnByte
    simp
  | cons c rest ih =>
    have hc : c ≠ sep := h c (List.mem_cons_self _ _)
    have hr := ih fun x hx => h x (List.mem_cons_of_mem _ hx)
    show splitOnByte sep (c :: (rest ++ sep :: t)) = _
    conv_lhs => unfold splitOnByte
    simp only [hc, if_false, hr]

theorem cutEq_append (s t : GoString) (h : ∀ c ∈ s, c.val ≠ 0x3D) :
    cutEq (s ++ 0x3D :: t) = (s, t) := by
  induction s with
  | nil =>
    show cutEq (0x3D :: t) = _
    unfold cutEq
    rfl
  | cons c rest ih =>
    have hc : c.val ≠ 0x3D := h c (List.mem_cons_self _ _)
    have hr := ih fun x hx => h x (List.mem_cons_of_mem _ hx)
    show cutEq (c :: (rest ++ 0x3D :: t)) = _
    conv_lhs => unfold cutEq
    simp only [hc, if_false, hr]

/-- Reading back a form body of two pairs whose keys need no escaping. -/
theorem ParseQuery_two (k1 k2 v1 v2 : GoString) (hk : k1 ≠ k2)
    (h1 : QueryEscape k1 = k1) (h2 : QueryEscape k2 = k2) (hne1 : k1 ≠ []) (hne2 : k2 ≠ []) :
    ParseQuery (k1 ++ [0x3D] ++ QueryEscape v1 ++ [0x26] ++ (k2 ++ [0x3D] ++ QueryEscape v2))
      = ([(k1, [v1]), (k2, [v2])], none) := by
  have sepk1 : ∀ c ∈ k1, c.val ≠ 0x26 ∧ c.val ≠ 0x3D ∧ c.val ≠ 0x3B := by
    intro c hc; rw [← h1] at hc; exact QueryEscape_bytes k1 c hc
  have sepk2 : ∀ c ∈ k2, c.val ≠ 0x26 ∧ c.val ≠ 0x3D ∧ c.val ≠ 0x3B := by
    intro c hc; rw [← h2] at hc; exact QueryEscape_bytes k2 c hc
  have seg : ∀ (k v : GoString), (∀ c ∈ k, c.val ≠ 0x26 ∧ c.val ≠ 0x3D ∧ c.val ≠ 0x3B) →
      ∀ c ∈ k ++ [0x3D] ++ QueryEscape v, c.val ≠ 0x26 ∧ c.val ≠ 0x3B := by
    intro k v hkk c hc
    simp only [List.mem_append, List.mem_singleton] at hc
    rcases hc with (hc | hc) | hc
    · exact ⟨(hkk c hc).1, (hkk c hc).2.2⟩
    · subst hc; decide
    · exact ⟨(QueryEscape_bytes v c hc).1, (QueryEscape_bytes v c hc).2.2⟩
  have hsplit : splitOnByte 0x26
      (k1 ++ [0x3D] ++ QueryEscape v1 ++ [0x26] ++ (k2 ++ [0x3D] ++ QueryEscape v2))
      = [k1 ++ [0x3D] ++ QueryEscape v1, k2 ++ [0x3D] ++ QueryEscape v2] := by
    have e : k1 ++ [0x3D] ++ QueryEscape v1 ++ [0x26] ++ (k2 ++ [0x3D] ++ QueryEscape v2)
        = (k1 ++ [0x3D] ++ QueryEscape v1) ++ 0x26 :: (k2 ++ [0x3D] ++ QueryEscape v2) := by
      simp
    rw [e, splitOnByte_append, splitOnByte_no_sep]
    · intro c hc h; exact (seg k2 v2 sepk2 c hc).1 (by rw [h]; rfl)
    · intro c hc h; exact (seg k1 v1 sepk1 c hc).1 (by rw [h]; rfl)
  have hany : ∀ (k v : GoString), (∀ c ∈ k, c.val ≠ 0x26 ∧ c.val ≠ 0x3D ∧ c.val ≠ 0x3B) →
      (k ++ [0x3D] ++ QueryEscape v).any (fun c => decide (c.val = 0x3B)) = false := by
    intro k v hkk
    rw [List.any_eq_false]
    intro c hc
    simpa using (seg k v hkk c hc).2
  have hcut : ∀ (k v : GoString), (∀ c ∈ k, c.val ≠ 0x26 ∧ c.val ≠ 0x3D ∧ c.val ≠ 0x3B) →
      cutEq (k ++ [0x3D] ++ QueryEscape v) = (k, QueryEscape v) := by
    intro k v hkk
    have e : k ++ [0x3D] ++ QueryEscape v = k ++ 0x3D :: QueryEscape v := by simp
    rw [e]
    exact cutEq_append k _ fun c hc => (hkk c hc).2.1
  have hlen : ∀ (k v : GoString), k ≠ [] → ¬ (k ++ [0x3D] ++ QueryEscape v).length = 0 := by
    intro k v _
    simp
  have hu1 : QueryUnescape k1 = some k1 := by
    have := QueryUnescape_QueryEscape k1; rwa [h1] at this
  have hu2 : QueryUnescape k2 = some k2 := by
    have := QueryUnescape_QueryEscape k2; rwa [h2] at this
  have hk' : (k1 = k2) = False := eq_false hk
  unfold ParseQuery
  rw [hsplit]
  simp only [parseSegments, hany k1 v1 sepk1, hany k2 v2 sepk2, hlen k1 v1 hne1, hlen k2 v2 hne2,
    hcut k1 v1 sepk1, hcut k2 v2 sepk2, hu1, hu2, QueryUnescape_QueryEscape, Values.Add, hk',
    if_false, Bool.false_eq_true]

/-- C5: for every API key and every Identify record that serializes, the form
body `Identify` sends decodes (with `url.ParseQuery`, without error) to exactly
two fields: `api_key`, holding the client's key, and `identification`, holding
byte for byte the JSON text `json.Marshal` gave for the record. -/
theorem identify_form_roundtrip (lib : Stdlib) (c : Client) (msg : Identify)
    (msgJson : GoString) (h : msg.jsonMarshal lib = .ok msgJson) :
    ∃ r : Request,
      (c.Identify lib msg).sent = [r]
      ∧ ParseQuery r.Body
          = ([(str "api_key", [c.key]), (str "identification", [msgJson])], none) := by
  refine ⟨identifyRequest c.key msgJson, Identify_sent_of_ok lib c msg msgJson h, ?_⟩
  have e1 : str "api_key=" = str "api_key" ++ [0x3D] := by decide
  have e2 : str "&identification=" = [0x26] ++ (str "identification" ++ [0x3D]) := by decide
  have e : (identifyRequest c.key msgJson).Body
      = str "api_key" ++ [0x3D] ++ QueryEscape c.key ++ [0x26]
          ++ (str "identification" ++ [0x3D] ++ QueryEscape msgJson) := by
    simp only [identifyRequest, e1, e2, List.append_assoc]
  rw [e]
  exact ParseQuery_two (str "api_key") (str "identification") c.key msgJson
    (by decide) (by decide) (by decide) (by decide) (by decide)

/-- Witness of C5: a key and a property value holding `&`, `=`, `%`, `+`, a
space and a non-ASCII letter. -/
theorem identify_form_roundtrip_witness :
    ∃ r : Request,
      (Client.Identify Stdlib.sample (New (fun _ => .error (.other 1)) (str "k&1=%+ é"))
        { UserId := str "u 1", UserProperties := [(str "a=b", .string (str "x&y%+ é"))] }).sent
        = [r]
      ∧ ParseQuery r.Body
          = ([(str "api_key", [str "k&1=%+ é"]),
              (str "identification",
                [str "\x7b\"user_id\":\"u 1\",\"user_properties\":\x7b\"a=b\":\"x\\u0026y%+ é\"\x7d\x7d"])],
             none) :=
  identify_form_roundtrip Stdlib.sample (New (fun _ => .error (.other 1)) (str "k&1=%+ é"))
    { UserId := str "u 1", UserProperties := [(str "a=b", .string (str "x&y%+ é"))] }
    (str "\x7b\"user_id\":\"u 1\",\"user_properties\":\x7b\"a=b\":\"x\\u0026y%+ é\"\x7d\x7d")
    (by rfl)

end Amplitude
